import Mathlib

/-!
Verification of the Balance API (NestJS/TypeScript) against its
natural-language specification.

Shallow embedding conventions used throughout:
* JS strings that undergo trimming / lower-casing / scanning are modelled as
  `List Char` (one element per UTF-16 code unit; every string handled by the
  code paths modelled here is ASCII, where the two views agree).
* Fixed message strings that are only compared for equality stay `String`.
* `Date` values are modelled as natural-number timestamps (milliseconds).
* The floating-point `detectionConfidence` emitted by the classifier is a
  two-decimal value (`Number(x.toFixed(2))`); it is modelled exactly as an
  integer number of hundredths (`33` stands for `0.33`).  All reachable
  confidences are multiples of 1/100 with no representation issues at this
  granularity.
* MongoDB collections are modelled as lists of record structures;
  `findOne`/`findOneAndUpdate`/`updateOne` act on the first matching element,
  `updateMany` on all matching elements.
-/

namespace Balance

/-- `StatementType` enum from `db/schemas/file.schema.ts`. -/
inductive StatementType where
  | credit
  | checking
  | savings
  | unknown
  deriving DecidableEq, Repr

/-- `STATEMENT_KEYWORDS` from `files.service.ts` (marker phrases per scored
category; `unknown` has no keyword list in the source map). -/
def statementKeywords : StatementType → List (List Char)
  | .credit =>
      ["credit card".data, "minimum payment".data, "statement balance".data,
        "credit limit".data]
  | .checking => ["checking account".data, "deposits".data, "withdrawals".data]
  | .savings => ["savings account".data, "interest earned".data]
  | .unknown => []

/-- `STATEMENT_TYPE_PRIORITY` from `files.service.ts` (`unknown` is absent from
the source map; it never reaches the comparator). -/
def statementTypePriority : StatementType → Nat
  | .credit => 3
  | .checking => 2
  | .savings => 1
  | .unknown => 0

/-- One step list of the non-overlapping scan of
`FilesService.countKeywordOccurrences`: the JS loop repeatedly takes
`indexOf(keyword, fromIndex)` and jumps past the match.  Scanning the text one
position at a time and skipping `kw.length` positions after a match computes
the same leftmost non-overlapping count.  `fuel` bounds the recursion; since
every source keyword is non-empty, `fuel = text.length` is enough (the JS
loop would not terminate on an empty keyword, which never occurs). -/
def countOccAux (kw : List Char) : Nat → List Char → Nat
  | 0, _ => 0
  | _, [] => 0
  | fuel + 1, c :: rest =>
      if kw.isPrefixOf (c :: rest) then
        1 + countOccAux kw fuel ((c :: rest).drop kw.length)
      else
        countOccAux kw fuel rest

/-- `FilesService.countKeywordOccurrences(text, keyword)`. -/
def countKeywordOccurrences (text kw : List Char) : Nat :=
  countOccAux kw text.length text

/-- JS `text.includes(keyword)`: the keyword occurs as a contiguous substring. -/
def textIncludes (text kw : List Char) : Bool :=
  decide (kw <:+: text)

/-- One element of the `entries` array built inside
`FilesService.detectStatementTypeFromText`. -/
structure ScoreEntry where
  type : StatementType
  uniqueKeywordMatches : Nat
  mentionScore : Nat
  totalKeywords : Nat
  deriving DecidableEq, Repr

/-- The scores computed for one category: `uniqueKeywordMatches` is the
`reduce` counting keywords present at least once (`List.countP`), and
`mentionScore` is the `reduce` summing all non-overlapping occurrence counts. -/
def scoreEntryFor (text : List Char) (t : StatementType) : ScoreEntry :=
  { type := t
    uniqueKeywordMatches := (statementKeywords t).countP (textIncludes text)
    mentionScore := ((statementKeywords t).map (countKeywordOccurrences text)).sum
    totalKeywords := (statementKeywords t).length }

/-- The `entries` array, in the insertion order of the `STATEMENT_KEYWORDS`
object literal (`Object.entries` preserves it): credit, checking, savings. -/
def scoredEntries (text : List Char) : List ScoreEntry :=
  [StatementType.credit, StatementType.checking, StatementType.savings].map
    (scoreEntryFor text)

/-- The `candidates` array: entries with a positive score. -/
def candidateEntries (text : List Char) : List ScoreEntry :=
  (scoredEntries text).filter
    (fun e => decide (0 < e.uniqueKeywordMatches) || decide (0 < e.mentionScore))

/-- The coverage ratio `totalKeywords > 0 ? unique / total : 0` of the
comparator, represented as an exact numerator/denominator pair (the JS code
compares the IEEE-double quotients; for the reachable values — numerators ≤ 4
and denominators in {2,3,4} — double comparison agrees with exact rational
comparison, so cross-multiplication is a faithful model). -/
def coverageVal (e : ScoreEntry) : Nat × Nat :=
  if 0 < e.totalKeywords then (e.uniqueKeywordMatches, e.totalKeywords) else (0, 1)

/-- `coverage a < coverage b` as exact rational comparison. -/
def coverageLt (a b : ScoreEntry) : Bool :=
  decide ((coverageVal a).1 * (coverageVal b).2 < (coverageVal b).1 * (coverageVal a).2)

/-- `coverage a = coverage b` as exact rational comparison. -/
def coverageEq (a b : ScoreEntry) : Bool :=
  decide ((coverageVal a).1 * (coverageVal b).2 = (coverageVal b).1 * (coverageVal a).2)

/-- `comparator(a, b) < 0` for the sort comparator inside
`detectStatementTypeFromText`: `a` sorts strictly before `b`. -/
def sortsBefore (a b : ScoreEntry) : Bool :=
  if a.uniqueKeywordMatches ≠ b.uniqueKeywordMatches then
    decide (b.uniqueKeywordMatches < a.uniqueKeywordMatches)
  else if a.mentionScore ≠ b.mentionScore then
    decide (b.mentionScore < a.mentionScore)
  else if ¬ (coverageEq a b = true) then
    coverageLt b a
  else
    decide (statementTypePriority b.type < statementTypePriority a.type)

/-- One comparison step of extracting `sort(comparator)[0]`: keep the element
that sorts earlier, preferring the incumbent on ties. -/
def pickBetter (best c : ScoreEntry) : ScoreEntry :=
  if sortsBefore c best then c else best

/-- `candidates.sort(comparator)[0]`.  The comparator is a consistent
comparator in the ECMAScript sense (and a strict total order on the candidate
entries, whose categories — hence priorities — are pairwise distinct), so
whatever sorting algorithm the engine uses, the first element of the sorted
array is the first comparator-minimal element of the input.  This fold
computes exactly that element. -/
def selectWinner : List ScoreEntry → Option ScoreEntry
  | [] => none
  | x :: xs => some (xs.foldl pickBetter x)

/-- The classifier output triple.  `detectionConfidence` is in hundredths:
`Number((u / t).toFixed(2))` for `t ∈ {2,3,4}` always equals
`round(100 * u / t) / 100`, and `round(100 * u / t) = (200 * u + t) / (2 * t)`
in natural-number division. -/
structure DetectionResult where
  autoDetectedType : StatementType
  detectionConfidence : Nat
  isLikelyStatement : Bool
  deriving DecidableEq, Repr

/-- `totalKeywords > 0 ? unique / total : 0`, then `toFixed(2)`, in hundredths. -/
def confidenceHundredths (u t : Nat) : Nat :=
  if 0 < t then (200 * u + t) / (2 * t) else 0

/-- `FilesService.detectStatementTypeFromText`. -/
def detectStatementTypeFromText (text : List Char) : DetectionResult :=
  if text = [] then
    { autoDetectedType := .unknown, detectionConfidence := 0, isLikelyStatement := false }
  else
    match selectWinner (candidateEntries text) with
    | none =>
        { autoDetectedType := .unknown, detectionConfidence := 0, isLikelyStatement := false }
    | some winner =>
        { autoDetectedType := winner.type
          detectionConfidence :=
            confidenceHundredths winner.uniqueKeywordMatches winner.totalKeywords
          isLikelyStatement := true }

/-- Spec-side coverage ratio `uniqueKeywordMatches / totalKeywordsForCategory`
as an exact rational (spec §4.1 step 4(c)). -/
def specCoverage (e : ScoreEntry) : ℚ :=
  (e.uniqueKeywordMatches : ℚ) / (e.totalKeywords : ℚ)

/-- Spec-side strict ranking (spec §4.1 step 4): `a` ranks strictly higher than
`b` under `uniqueKeywordMatches` desc, then `mentionScore` desc, then coverage
desc, then the fixed priority credit > checking > savings. -/
def specRanksHigher (a b : ScoreEntry) : Prop :=
  b.uniqueKeywordMatches < a.uniqueKeywordMatches ∨
    (a.uniqueKeywordMatches = b.uniqueKeywordMatches ∧
      (b.mentionScore < a.mentionScore ∨
        (a.mentionScore = b.mentionScore ∧
          (specCoverage b < specCoverage a ∨
            (specCoverage a = specCoverage b ∧
              statementTypePriority b.type < statementTypePriority a.type)))))

instance (a b : ScoreEntry) : Decidable (specRanksHigher a b) := by
  unfold specRanksHigher; infer_instance

/-- Spec-side winner: the first candidate no other candidate outranks
(with pairwise-distinct priorities this is the unique maximal candidate). -/
def specWinner (l : List ScoreEntry) : Option ScoreEntry :=
  l.find? (fun w => l.all (fun c => decide (¬ specRanksHigher c w)))

/-- Spec-side confidence: `uniqueKeywordMatches / totalKeywordsForCategory`
rounded to 2 decimals (spec §4.1 step 5), in hundredths. -/
def specConfidenceHundredths (u t : Nat) : Nat :=
  (round ((100 * u : ℚ) / (t : ℚ))).toNat

/-- The spec §4.1 reference algorithm for the Keyword Classifier, written
from the spec's words: empty text or no surviving candidate gives
`{unknown, 0, false}`; otherwise the maximal candidate under the spec ordering
wins with the rounded coverage confidence. -/
def specDetect (text : List Char) : DetectionResult :=
  if text = [] then
    { autoDetectedType := .unknown, detectionConfidence := 0, isLikelyStatement := false }
  else
    match specWinner (candidateEntries text) with
    | none =>
        { autoDetectedType := .unknown, detectionConfidence := 0, isLikelyStatement := false }
    | some winner =>
        { autoDetectedType := winner.type
          detectionConfidence :=
            specConfidenceHundredths winner.uniqueKeywordMatches winner.totalKeywords
          isLikelyStatement := true }

/-- The spec ordering §4.1 step 4 packaged as a lexicographic key
(`uniqueKeywordMatches`, `mentionScore`, coverage, priority); `a` ranks
strictly higher than `b` iff `rankKey b < rankKey a`. -/
def rankKey (e : ScoreEntry) : ℕ ×ₗ (ℕ ×ₗ (ℚ ×ₗ ℕ)) :=
  toLex (e.uniqueKeywordMatches,
    toLex (e.mentionScore, toLex (specCoverage e, statementTypePriority e.type)))

-- ---------- Bearer-token verification (jwt.strategy.ts) ----------

/-- An HTTP error response value (status code and message). -/
structure HttpError where
  status : Nat
  message : String
  deriving DecidableEq, Repr

/-- `AccessTokenPayload` from `auth.service.ts` as decoded from a JWT:
`email` and `sessionId` may be absent (`none`), and JS falsiness additionally
treats the empty string as missing; `type` is an arbitrary string in an
incoming token. -/
structure AccessTokenPayload where
  email : Option String
  sessionId : Option String
  type : String
  deriving DecidableEq, Repr

/-- JS truthiness of an optional string field (`!payload?.email`,
`!payload.sessionId` are the negations of this). -/
def optStringTruthy : Option String → Bool
  | none => false
  | some s => decide (s ≠ "")

/-- `JwtStrategy.isValidType`. -/
def isValidType (v : String) : Bool :=
  decide (v = "continue_session") || decide (v = "find_sessions")

/-- The single 401 error every rejection path of `validateAccessToken`
produces (`UnauthorizedException(INVALID_ACCESS_TOKEN_MESSAGE)`). -/
def invalidAccessTokenError : HttpError :=
  { status := 401, message := "Invalid or expired access token." }

/-- `JwtStrategy.validateAccessToken`, modelling the payload checks performed
after `jwtService.verifyAsync` has verified signature and JWT expiry (those
are external library behaviour). -/
def validateAccessToken (p : AccessTokenPayload) : Except HttpError AccessTokenPayload :=
  if !optStringTruthy p.email || !isValidType p.type then
    .error invalidAccessTokenError
  else if p.type == "continue_session" && !optStringTruthy p.sessionId then
    .error invalidAccessTokenError
  else
    .ok p

/-- The payload minted by `SessionsService.createSessionBootstrapAccessToken`
and returned (signed) to the client from `createSession`. -/
def createSessionBootstrapPayload (email sessionId : String) : AccessTokenPayload :=
  { email := some email, sessionId := some sessionId, type := "session_bootstrap" }

-- ---------- Access-token expiry configuration (auth.service.ts / sessions.service.ts) ----------

/-- JS `String.prototype.trim`, on the char-list view. -/
def trimChars (s : List Char) : List Char :=
  (s.dropWhile Char.isWhitespace).rdropWhile Char.isWhitespace

/-- Digits-to-number (`Number.parseInt` on an all-digit string; JS numbers are
modelled with unbounded precision, exact for every realistic configuration). -/
def digitsToNat (ds : List Char) : Nat :=
  ds.foldl (fun n c => n * 10 + (c.toNat - '0'.toNat)) 0

/-- Matches `^(\d+)([smhd]?)$`: the digit group and the optional unit. -/
def digitsThenUnit? (s : List Char) : Option (List Char × Option Char) :=
  let ds := s.takeWhile Char.isDigit
  if ds = [] then none
  else
    match s.drop ds.length with
    | [] => some (ds, none)
    | [c] => if c = 's' ∨ c = 'm' ∨ c = 'h' ∨ c = 'd' then some (ds, some c) else none
    | _ => none

/-- `AuthService.getJwtExpiresIn`: the raw trimmed `JWT_EXPIRES_IN` when
non-empty (no format validation), else the default `'1h'`. -/
def getJwtExpiresIn (cfg : Option (List Char)) : List Char :=
  match cfg with
  | none => "1h".data
  | some raw =>
      let t := trimChars raw
      if t = [] then "1h".data else t

/-- `SessionsService.getSanitizedEnvValue`: trim, strip one level of matching
single/double quotes (re-trimming inside), empty results become `none`. -/
def getSanitizedEnvValue (cfg : Option (List Char)) : Option (List Char) :=
  match cfg with
  | none => none
  | some v =>
      if v = [] then none
      else
        let t := trimChars v
        if t = [] then none
        else if (t.head? = some '"' ∧ t.getLast? = some '"') ∨
            (t.head? = some '\'' ∧ t.getLast? = some '\'') then
          let u := trimChars ((t.drop 1).dropLast)
          if u = [] then none else some u
        else some t

/-- JS `Number.isInteger(parseInt(raw,10)) && parsed > 0 && String(parsed) ===
raw`: `raw` is the canonical decimal rendering of a positive integer. -/
def isCanonicalPosInt (raw : List Char) : Bool :=
  raw.all Char.isDigit && decide (0 < digitsToNat raw) &&
    decide ((toString (digitsToNat raw)).data = raw)

/-- The `/^\d+[smhd]$/` test of `getBootstrapAccessTokenExpiresIn` (one or
more digits followed by a mandatory unit). -/
def matchesTimespan (s : List Char) : Bool :=
  match digitsThenUnit? s with
  | some (_, some _) => true
  | _ => false

/-- `DEFAULT_BOOTSTRAP_ACCESS_TOKEN_EXPIRES_IN` from `sessions.service.ts`. -/
def DEFAULT_BOOTSTRAP_EXPIRES_IN : List Char := "1h".data

/-- `SessionsService.getBootstrapAccessTokenExpiresIn`: sanitized
`JWT_EXPIRES_IN`; canonical positive integers pass through, otherwise the
lowercased whitespace-stripped value passes if it matches `^\d+[smhd]$`,
otherwise the default `'1h'`. -/
def getBootstrapAccessTokenExpiresIn (cfg : Option (List Char)) : List Char :=
  match getSanitizedEnvValue cfg with
  | none => DEFAULT_BOOTSTRAP_EXPIRES_IN
  | some raw =>
      if isCanonicalPosInt raw then raw
      else
        let normalizedTimespan := (raw.map Char.toLower).filter (fun c => !c.isWhitespace)
        if matchesTimespan normalizedTimespan then normalizedTimespan
        else DEFAULT_BOOTSTRAP_EXPIRES_IN

/-- The expiry formats the claim calls valid: a positive raw-seconds number,
or a positive number suffixed with one of s/m/h/d (written from the claim's
words, for the counterexample). -/
def claimValidExpiry (s : List Char) : Bool :=
  match digitsThenUnit? s with
  | some (ds, _) => decide (0 < digitsToNat ds)
  | none => false

-- ---------- Email-token consumption (AuthService.verifyToken) ----------

/-- `EmailTokenPurpose` enum from `email-token.schema.ts`. -/
inductive EmailTokenPurpose where
  | continueSession
  | findSessions
  deriving DecidableEq, Repr

/-- An `email_tokens` document (`email-token.schema.ts`). -/
structure EmailTokenDoc where
  tokenHash : String
  email : String
  purpose : EmailTokenPurpose
  sessionId : Option String
  usedAt : Option Nat
  expiresAt : Nat
  deriving DecidableEq, Repr

/-- The filter of the conditional update in `verifyToken`:
`{ tokenHash, usedAt: null, expiresAt: { $gt: now } }`. -/
def emailTokenConsumable (hash : String) (now : Nat) (d : EmailTokenDoc) : Bool :=
  d.tokenHash == hash && d.usedAt == none && decide (now < d.expiresAt)

/-- `findOneAndUpdate(filter, { $set: { usedAt: now } }, { new: true })`:
update the first matching document of the collection and return it
post-update, leaving every other document unchanged. -/
def findOneAndConsume (hash : String) (now : Nat) :
    List EmailTokenDoc → Option EmailTokenDoc × List EmailTokenDoc
  | [] => (none, [])
  | d :: rest =>
      if emailTokenConsumable hash now d then
        (some { d with usedAt := some now }, { d with usedAt := some now } :: rest)
      else
        ((findOneAndConsume hash now rest).1, d :: (findOneAndConsume hash now rest).2)

/-- The 400 error every failed verification produces
(`BadRequestException(INVALID_TOKEN_MESSAGE)`). -/
def invalidTokenError : HttpError :=
  { status := 400, message := "Invalid or expired token." }

/-- `AuthService.verifyToken` up to and including the store update: hash the
raw token (`sha256Hex` is external crypto, abstracted as `hashFn`), atomically
consume the matching unused unexpired document, and fail with the generic 400
error otherwise.  (The access-token minting and session listing that follow a
successful consume are outside this claim.) -/
def verifyTokenConsume (hashFn : String → String) (now : Nat)
    (store : List EmailTokenDoc) (rawToken : String) :
    Except HttpError EmailTokenDoc × List EmailTokenDoc :=
  match findOneAndConsume (hashFn rawToken) now store with
  | (none, store1) => (.error invalidTokenError, store1)
  | (some d, store1) => (.ok d, store1)

-- ---------- Enumeration prevention (AuthService.requestLink / requestSessions) ----------

/-- The generic response body of the magic-link request endpoints. -/
structure GenericAuthResponse where
  message : String
  deriving DecidableEq, Repr

/-- `REQUEST_LINK_MESSAGE` from `auth.service.ts`. -/
def REQUEST_LINK_MESSAGE : String :=
  "If we found a session, you\x27ll receive an email shortly."

/-- `REQUEST_SESSIONS_MESSAGE` from `auth.service.ts`. -/
def REQUEST_SESSIONS_MESSAGE : String :=
  "If we found sessions, you\x27ll receive an email shortly."

/-- The hidden collaborator outcomes one execution of `requestLink` /
`requestSessions` can encounter: whether the rate limiter trips, whether an
active session matches (resp. how many), and whether token persistence
(`createEmailToken`, including its 3-attempt retry) and email delivery
succeed — `false` models any error thrown by those steps, which the service
catches and logs.  (A thrown database error from the session lookup itself is
outside the failure modes the claim enumerates.) -/
structure RequestOutcomes where
  rateLimited : Bool
  sessionFound : Bool
  activeSessionCount : Nat
  tokenPersistOk : Bool
  emailSendOk : Bool
  deriving DecidableEq, Repr

/-- `AuthService.requestLink`, returning the HTTP-visible response and the
hidden effect (whether a magic-link email actually went out).  Mirrors the
control flow: rate-limit check, session lookup, then
`try { createEmailToken; sendMagicLink } catch { log }`, and the same generic
message on every path. -/
def requestLink (o : RequestOutcomes) : GenericAuthResponse × Bool :=
  if o.rateLimited then
    ({ message := REQUEST_LINK_MESSAGE }, false)
  else if !o.sessionFound then
    ({ message := REQUEST_LINK_MESSAGE }, false)
  else
    ({ message := REQUEST_LINK_MESSAGE }, o.tokenPersistOk && o.emailSendOk)

/-- `AuthService.requestSessions`: rate-limit check, active-session count
(`willSendEmail = count > 0`), then the same guarded issue-and-send block. -/
def requestSessions (o : RequestOutcomes) : GenericAuthResponse × Bool :=
  if o.rateLimited then
    ({ message := REQUEST_SESSIONS_MESSAGE }, false)
  else if o.activeSessionCount = 0 then
    ({ message := REQUEST_SESSIONS_MESSAGE }, false)
  else
    ({ message := REQUEST_SESSIONS_MESSAGE }, o.tokenPersistOk && o.emailSendOk)

-- ---------- Storage keys (FilesService.buildS3Key / sanitizeFileName) ----------

/-- A character kept verbatim by the sanitizer: `[a-z0-9]` (tested on the
already-lowercased name). -/
def isSanitizedAlnum (c : Char) : Bool :=
  decide (('a' ≤ c ∧ c ≤ 'z') ∨ ('0' ≤ c ∧ c ≤ '9'))

/-- `originalName.replace(/\.pdf$/i, '')`: strip one trailing `.pdf`,
case-insensitively. -/
def stripPdfExt (name : List Char) : List Char :=
  if 4 ≤ name.length ∧ (name.drop (name.length - 4)).map Char.toLower = ".pdf".data then
    name.take (name.length - 4)
  else
    name

/-- `replace(/[^a-z0-9]+/g, '-')`: collapse every run of non-alphanumeric
characters into a single `-`.  The Boolean flag records whether the scan is
inside a run that has already emitted its `-` (structural recursion computing
exactly the regex global replacement). -/
def collapseAux (inRun : Bool) : List Char → List Char
  | [] => []
  | c :: rest =>
      if isSanitizedAlnum c then c :: collapseAux false rest
      else if inRun then collapseAux true rest
      else '-' :: collapseAux true rest

/-- `FilesService.sanitizeFileName`. -/
def sanitizeFileName (originalName : List Char) : List Char :=
  let lowered := (trimChars (stripPdfExt originalName)).map Char.toLower
  let collapsed := collapseAux false lowered
  let stripped := (collapsed.dropWhile (fun c => c == '-')).rdropWhile (fun c => c == '-')
  let sliced := stripped.take 80
  if sliced = [] then "statement".data else sliced

/-- `FileCategory` enum.  Its declaration is not among the captured sources
(only its uses in `files.service.ts` and the DTOs), so the member set is
taken from those uses. -/
inductive FileCategory where
  | credit
  | checking
  | savings
  | unknown
  | unfiled
  deriving DecidableEq, Repr

/-- Modelled from the spec: the string value of each `FileCategory` member
(spec §3 lists the category set {credit, checking, savings, unknown,
unfiled}; the enum declaration with its literal values is missing from the
captured sources). -/
def fileCategoryString : FileCategory → List Char
  | .credit => "credit".data
  | .checking => "checking".data
  | .savings => "savings".data
  | .unknown => "unknown".data
  | .unfiled => "unfiled".data

/-- `FilesService.buildS3Key`:
`sessions/<sessionId>/<folder>/<fileId>-<safeName>.pdf` where the folder is
`root` for unfiled files and the category value otherwise. -/
def buildS3Key (sessionId : List Char) (category : FileCategory) (fileId : List Char)
    (originalName : List Char) : List Char :=
  "sessions/".data ++ sessionId ++ ['/'] ++
    (if category = FileCategory.unfiled then "root".data else fileCategoryString category) ++
    ['/'] ++ (fileId ++ ['-'] ++ sanitizeFileName originalName ++ ".pdf".data)

/-- A MongoDB ObjectId rendered as hex: exactly 24 characters drawn from
`0-9a-f`. -/
def isObjectIdHex (s : List Char) : Bool :=
  decide (s.length = 24) &&
    s.all (fun c => decide (('0' ≤ c ∧ c ≤ '9') ∨ ('a' ≤ c ∧ c ≤ 'f')))

/-- The segment of a key after its last `/`. -/
def suffixAfterLastSlash (l : List Char) : List Char :=
  (l.reverse.takeWhile (fun c => !(c == '/'))).reverse

-- ---------- Persisted data model (session.schema.ts / file.schema.ts) ----------

/-- `SessionStatus` enum from `session.schema.ts`. -/
inductive SessionStatus where
  | active
  | expired
  | deleted
  deriving DecidableEq, Repr

/-- `FileStatus` enum from `file.schema.ts`. -/
inductive FileStatus where
  | pending
  | uploaded
  | deleted
  | rejected
  deriving DecidableEq, Repr

/-- A `sessions` document (the fields the modelled operations touch).
`autoCategorizeOnUpload` is read by the upload path as
`session.autoCategorizeOnUpload !== false`; its schema declaration is not
among the captured sources, so it is an `Option Bool` (`none` = absent). -/
structure SessionRec where
  sessionId : List Char
  email : List Char
  status : SessionStatus
  expiresAt : Nat
  deletedAt : Option Nat
  autoCategorizeOnUpload : Option Bool
  deriving DecidableEq, Repr

/-- A `files` document (the fields the modelled operations touch); the `_id`
ObjectId is its 24-hex-character string rendering. -/
structure FileRec where
  id : List Char
  sessionId : List Char
  originalName : List Char
  mimeType : String
  size : Nat
  statementType : StatementType
  category : FileCategory
  status : FileStatus
  s3Bucket : List Char
  s3Key : List Char
  uploadedAt : Option Nat
  deletedAt : Option Nat
  deriving DecidableEq, Repr

/-- The two collections the sessions/files services operate on. -/
structure DBState where
  sessions : List SessionRec
  files : List FileRec
  deriving DecidableEq, Repr

/-- `normalizeEmail` (both services): `email.trim().toLowerCase()`. -/
def normalizeEmail (email : List Char) : List Char :=
  (trimChars email).map Char.toLower

/-- The requester identity carried by a validated access token. -/
structure Requester where
  email : List Char
  sessionId : Option (List Char)
  deriving DecidableEq, Repr

/-- `ForbiddenException(SESSION_ACCESS_FORBIDDEN_MESSAGE)`. -/
def sessionAccessForbiddenError : HttpError :=
  { status := 403, message := "Access to this session is not allowed." }

/-- `NotFoundException(SESSION_NOT_FOUND_MESSAGE)`. -/
def sessionNotFoundError : HttpError :=
  { status := 404, message := "Session not found." }

/-- `user.sessionId && user.sessionId !== sessionId`: a session-scoped token
used against a different session. -/
def scopeMismatch (user : Requester) (sessionId : List Char) : Bool :=
  match user.sessionId with
  | some usid => usid != sessionId
  | none => false

/-- `updateOne(filter, update)`: apply the update to the first matching
document of the collection. -/
def updateFirst {α : Type} (p : α → Bool) (f : α → α) : List α → List α
  | [] => []
  | x :: rest => if p x then f x :: rest else x :: updateFirst p f rest

-- ---------- Session deletion cascade (SessionsService.deleteActiveSessionById) ----------

/-- `SessionsService.getOwnedSessionById`: scope check, then the first
non-deleted session with this id owned by the normalized requester email. -/
def getOwnedSessionById (st : DBState) (sessionId : List Char) (user : Requester) :
    Except HttpError SessionRec :=
  if scopeMismatch user sessionId then
    .error sessionAccessForbiddenError
  else
    match st.sessions.find? (fun s =>
        s.sessionId == sessionId && s.email == normalizeEmail user.email &&
          s.status != SessionStatus.deleted) with
    | none => .error sessionNotFoundError
    | some sess => .ok sess

/-- `SessionsService.deleteActiveSessionById`.  `storageDeleteOk bucket key`
is the outcome of the `storageService.deleteObject` call for that object
(`false` = the promise rejected; `Promise.allSettled` attempts every delete
and only logs failures).  Returns `{deleted:true}`, the post-state, and the
list of storage-delete attempts `(bucket, key, outcome)` in order.  The
session `updateOne` filters on the raw `user.email` (not normalized), and the
file `updateMany` is a no-op when there are no uploaded files — both exactly
as in the source. -/
def deleteActiveSessionById (storageDeleteOk : List Char → List Char → Bool)
    (now : Nat) (st : DBState) (sessionId : List Char) (user : Requester) :
    Except HttpError (Bool × DBState × List (List Char × List Char × Bool)) :=
  match getOwnedSessionById st sessionId user with
  | .error e => .error e
  | .ok _ =>
      let sessions1 := updateFirst
        (fun s => s.sessionId == sessionId && s.email == user.email)
        (fun s => { s with status := SessionStatus.deleted, deletedAt := some now })
        st.sessions
      let uploadedFiles := st.files.filter
        (fun f => f.sessionId == sessionId && f.status == FileStatus.uploaded)
      let attempts := uploadedFiles.map
        (fun f => (f.s3Bucket, f.s3Key, storageDeleteOk f.s3Bucket f.s3Key))
      let ids := uploadedFiles.map FileRec.id
      let files1 := st.files.map (fun f =>
        if ids.contains f.id then
          { f with status := FileStatus.deleted, deletedAt := some now }
        else f)
      .ok (true, { sessions := sessions1, files := files1 }, attempts)

-- ---------- File upload (FilesService.uploadFilesToSession) ----------

/-- A multipart file as the upload handler receives it.  `buffer`, when
present, is modelled by the lowercased text `extractPdfText` would produce
from it (PDF parsing is the external `pdf-parse` library; a parse failure
yields the empty text). -/
structure MultipartFile where
  originalname : Option (List Char)
  mimetype : String
  size : Nat
  buffer : Option (List Char)
  deriving DecidableEq, Repr

/-- `FilesService.normalizeOriginalFileName`: trimmed name, defaulting to
`statement.pdf` when missing or blank. -/
def normalizeOriginalFileName (originalName : Option (List Char)) : List Char :=
  match originalName with
  | none => "statement.pdf".data
  | some n => if trimChars n = [] then "statement.pdf".data else trimChars n

/-- `FilesService.getFileNameKey`: `fileName.trim().toLowerCase()`. -/
def getFileNameKey (fileName : List Char) : List Char :=
  (trimChars fileName).map Char.toLower

/-- The key a stored file record contributes to duplicate detection. -/
def fileRecKey (r : FileRec) : List Char :=
  getFileNameKey r.originalName

/-- `FilesService.getExistingFileNameKeys`: the name keys of the session's
non-deleted files (records with an empty `originalName` are skipped, as the
`if (!file?.originalName) continue` does). -/
def getExistingFileNameKeys (files : List FileRec) (sessionId : List Char) :
    List (List Char) :=
  (files.filter (fun f => f.sessionId == sessionId && f.status != FileStatus.deleted)).filterMap
    (fun f => if f.originalName = [] then none else some (getFileNameKey f.originalName))

/-- `CATEGORY_FROM_STATEMENT`. -/
def categoryFromStatement : StatementType → FileCategory
  | .credit => .credit
  | .checking => .checking
  | .savings => .savings
  | .unknown => .unknown

/-- `FilesService.resolveUploadCategory`:
`session.autoCategorizeOnUpload !== false` gates auto-categorization. -/
def resolveUploadCategory (statementType : StatementType) (session : SessionRec) :
    FileCategory :=
  if session.autoCategorizeOnUpload = some false then FileCategory.unfiled
  else categoryFromStatement statementType

/-- `FilesService.getUploadFailureReason`, classifying the lowercased
`name code message` string of a storage error. -/
def getUploadFailureReason (combined : List Char) : String :=
  if textIncludes combined "nosuchbucket".data then
    "S3 bucket was not found. Verify S3_BUCKET_NAME."
  else if textIncludes combined "accessdenied".data ||
      textIncludes combined "invalidaccesskeyid".data ||
      textIncludes combined "signaturedoesnotmatch".data ||
      textIncludes combined "not authorized".data ||
      textIncludes combined "forbidden".data then
    "S3 credentials are invalid or missing PutObject permission."
  else if textIncludes combined "authorizationheadermalformed".data ||
      textIncludes combined "permanentredirect".data ||
      textIncludes combined "wrong region".data then
    "S3 region does not match the bucket region."
  else if textIncludes combined "timeout".data ||
      textIncludes combined "econnrefused".data ||
      textIncludes combined "enotfound".data ||
      textIncludes combined "network".data ||
      textIncludes combined "socket".data then
    "Unable to reach S3 from the API runtime."
  else
    "Failed to upload file to storage."

/-- `DUPLICATE_FILE_NAME_REASON`. -/
def DUPLICATE_FILE_NAME_REASON : String :=
  "A file with this name already exists in this session."

/-- One entry of the response `uploaded` list. -/
structure UploadedFileItem where
  id : List Char
  originalName : List Char
  statementType : StatementType
  category : FileCategory
  autoDetectedType : StatementType
  detectionConfidence : Nat
  isLikelyStatement : Bool
  s3Key : List Char
  uploadedAt : Nat
  deriving DecidableEq, Repr

/-- One entry of the response `rejected` list. -/
structure RejectedFileItem where
  originalName : List Char
  reason : String
  deriving DecidableEq, Repr

/-- One entry of the response `warnings` list. -/
structure UploadWarningItem where
  originalName : List Char
  reason : String
  deriving DecidableEq, Repr

/-- The upload response `{uploaded, rejected, warnings}`. -/
structure UploadFilesResponse where
  uploaded : List UploadedFileItem
  rejected : List RejectedFileItem
  warnings : List UploadWarningItem
  deriving DecidableEq, Repr

/-- A JS `Map` lookup where later `set`s of the same key win. -/
def mapGet (m : List (List Char × StatementType)) (k : List Char) :
    Option StatementType :=
  (m.reverse.find? (fun p => p.1 == k)).map (fun p => p.2)

/-- `FilesService.buildStatementTypeByFileNameKey`. -/
def buildStatementTypeByFileNameKey (m : List (List Char × StatementType)) :
    List (List Char × StatementType) :=
  m.map (fun p => (getFileNameKey p.1, p.2))

/-- `FilesService.assertSessionAccess`. -/
def assertSessionAccess (st : DBState) (sessionId : List Char) (user : Requester)
    (requireActive : Bool) (now : Nat) : Except HttpError SessionRec :=
  if normalizeEmail user.email = [] then
    .error sessionAccessForbiddenError
  else if scopeMismatch user sessionId then
    .error sessionAccessForbiddenError
  else
    match st.sessions.find? (fun s =>
        s.sessionId == sessionId && s.email == normalizeEmail user.email &&
          (if requireActive then
            s.status == SessionStatus.active && decide (now < s.expiresAt)
          else s.status != SessionStatus.deleted)) with
    | none => .error sessionNotFoundError
    | some sess => .ok sess

/-- The per-request context of one upload call (resolved configuration plus
the external collaborators: fresh ObjectId supply and the storage `PutObject`
outcome per key — `none` is success, `some err` the lowercased combined
error description of a throw). -/
structure UploadCtx where
  maxFileSizeMb : Nat
  bucket : List Char
  sessionId : List Char
  session : SessionRec
  hintsByKey : List (List Char × StatementType)
  idSupply : Nat → List Char
  storagePut : List Char → Option (List Char)
  now : Nat

/-- The mutable state of the per-file upload loop. -/
structure UploadLoopState where
  keys : List (List Char)
  nextId : Nat
  newRecords : List FileRec
  uploaded : List UploadedFileItem
  rejected : List RejectedFileItem
  warnings : List UploadWarningItem

/-- `fileNameKeysInSession.has`. -/
def keyMem (keys : List (List Char)) (k : List Char) : Bool :=
  keys.contains k

/-- One iteration of the upload loop, in source order: duplicate-name check,
MIME check, size check, missing-payload check, then inline detection, record
creation (`pending`), storage write, and the `uploaded`/`rejected` outcome
(the created record's final status; the transient `pending` save is not
separately observable in the final state). -/
def processOneFile (ctx : UploadCtx) (st : UploadLoopState) (file : MultipartFile) :
    UploadLoopState :=
  let originalName := normalizeOriginalFileName file.originalname
  let fileNameKey := getFileNameKey originalName
  if keyMem st.keys fileNameKey then
    { st with rejected := st.rejected ++ [⟨originalName, DUPLICATE_FILE_NAME_REASON⟩] }
  else if file.mimetype ≠ "application/pdf" then
    { st with rejected := st.rejected ++
        [⟨originalName, "Only application/pdf files are accepted."⟩] }
  else if ctx.maxFileSizeMb * 1024 * 1024 < file.size then
    { st with rejected := st.rejected ++
        [⟨originalName, "File exceeds max size (" ++ toString ctx.maxFileSizeMb ++ "MB)."⟩] }
  else
    match file.buffer with
    | none =>
        { st with rejected := st.rejected ++ [⟨originalName, "File payload is missing."⟩] }
    | some text =>
        let detection := detectStatementTypeFromText text
        let requested := (mapGet ctx.hintsByKey fileNameKey).getD StatementType.unknown
        let statementType :=
          if requested = StatementType.unknown then detection.autoDetectedType else requested
        let category := resolveUploadCategory statementType ctx.session
        let fileId := ctx.idSupply st.nextId
        let s3Key := buildS3Key ctx.sessionId category fileId originalName
        match ctx.storagePut s3Key with
        | none =>
            { keys := st.keys ++ [fileNameKey]
              nextId := st.nextId + 1
              newRecords := st.newRecords ++
                [{ id := fileId, sessionId := ctx.sessionId, originalName := originalName,
                   mimeType := file.mimetype, size := file.size,
                   statementType := statementType, category := category,
                   status := FileStatus.uploaded, s3Bucket := ctx.bucket, s3Key := s3Key,
                   uploadedAt := some ctx.now, deletedAt := none }]
              uploaded := st.uploaded ++
                [{ id := fileId, originalName := originalName,
                   statementType := statementType, category := category,
                   autoDetectedType := detection.autoDetectedType,
                   detectionConfidence := detection.detectionConfidence,
                   isLikelyStatement := detection.isLikelyStatement, s3Key := s3Key,
                   uploadedAt := ctx.now }]
              rejected := st.rejected
              warnings := st.warnings ++
                (if detection.isLikelyStatement then []
                 else [⟨originalName,
                   "No typical bank statement keywords were detected. Uploaded for manual review."⟩]) }
        | some err =>
            { keys := st.keys ++ [fileNameKey]
              nextId := st.nextId + 1
              newRecords := st.newRecords ++
                [{ id := fileId, sessionId := ctx.sessionId, originalName := originalName,
                   mimeType := file.mimetype, size := file.size,
                   statementType := statementType, category := category,
                   status := FileStatus.rejected, s3Bucket := ctx.bucket, s3Key := s3Key,
                   uploadedAt := none, deletedAt := none }]
              uploaded := st.uploaded
              rejected := st.rejected ++ [⟨originalName, getUploadFailureReason err⟩]
              warnings := st.warnings }

/-- The context the per-file loop runs under: the request context with the
`statementTypeByFileNameKey` map built from the request hints. -/
def uploadFoldCtx (ctx : UploadCtx) (hints : List (List Char × StatementType)) :
    UploadCtx :=
  { ctx with hintsByKey := buildStatementTypeByFileNameKey hints }

/-- The rejections pre-recorded for the files beyond the `maxFiles` cut
(`skippedBatch`), each with the count-exceeded reason. -/
def uploadOverflowRejected (maxFiles : Nat) (files : List MultipartFile) :
    List RejectedFileItem :=
  (files.drop maxFiles).map (fun f =>
    ⟨f.originalname.getD [],
      "Exceeded max file count (" ++ toString maxFiles ++ ")."⟩)

/-- The state the per-file loop starts from: the session's existing
non-deleted name keys (`fileNameKeysInSession`), no created records yet, and
the overflow rejections already recorded. -/
def uploadInitState (maxFiles : Nat) (st : DBState) (sessionId : List Char)
    (files : List MultipartFile) : UploadLoopState :=
  { keys := getExistingFileNameKeys st.files sessionId, nextId := 0,
    newRecords := [], uploaded := [],
    rejected := uploadOverflowRejected maxFiles files, warnings := [] }

/-- `FilesService.uploadFilesToSession`.  `maxFiles` and `maxFileSizeMb` are
the resolved configuration values (`getMaxFilesPerUpload`,
`getMaxFileSizeMb`), `bucket` the resolved `S3_BUCKET_NAME`. -/
def uploadFilesToSession (maxFiles : Nat) (ctx : UploadCtx) (st : DBState)
    (user : Requester) (files : List MultipartFile)
    (hints : List (List Char × StatementType)) :
    Except HttpError (UploadFilesResponse × DBState) :=
  if files = [] then
    .error { status := 400, message := "At least one file must be provided." }
  else
    match assertSessionAccess st ctx.sessionId user true ctx.now with
    | .error e => .error e
    | .ok _ =>
        let final := (files.take maxFiles).foldl
          (processOneFile (uploadFoldCtx ctx hints))
          (uploadInitState maxFiles st ctx.sessionId files)
        .ok ({ uploaded := final.uploaded, rejected := final.rejected,
               warnings := final.warnings },
          { st with files := st.files ++ final.newRecords })

/-- The name keys of a session's non-deleted file records (for the
uniqueness invariant). -/
def sessionNameKeys (files : List FileRec) (sessionId : List Char) : List (List Char) :=
  (files.filter (fun f => f.sessionId == sessionId && f.status != FileStatus.deleted)).map
    fileRecKey

/-- The loop invariant of the upload fold: the key set covers exactly the
pre-existing keys plus the created records' keys, created keys are pairwise
distinct, and every created record belongs to the session, is non-deleted,
and carries a fresh non-empty key. -/
def LoopInv (sessionId : List Char) (keys0 : List (List Char))
    (st : UploadLoopState) : Prop :=
  (∀ k, k ∈ st.keys ↔ (k ∈ keys0 ∨ k ∈ st.newRecords.map fileRecKey)) ∧
    (st.newRecords.map fileRecKey).Nodup ∧
    (∀ r ∈ st.newRecords, r.sessionId = sessionId ∧ r.status ≠ FileStatus.deleted ∧
      fileRecKey r ∉ keys0 ∧ fileRecKey r ≠ [])

-- ---------- Concrete fixtures for the closed evaluations below ----------

/-- A stored active session owned by `user@example.com`. -/
def exampleSession : SessionRec :=
  ⟨"AAAAAAA2".data, "user@example.com".data, SessionStatus.active, 100, none, none⟩

/-- A stored uploaded file of that session. -/
def exampleUploadedFile : FileRec :=
  ⟨"5f4e3d2c1b0a99887766554a".data, "AAAAAAA2".data, "a.pdf".data,
    "application/pdf", 10, StatementType.unknown, FileCategory.unknown,
    FileStatus.uploaded, "bucket".data, "key".data, some 1, none⟩

/-- The store holding the two fixtures above. -/
def exampleState : DBState := ⟨[exampleSession], [exampleUploadedFile]⟩

/-- A requester whose token email is already normalized. -/
def normalizedUser : Requester := ⟨"user@example.com".data, none⟩

/-- An owning requester whose email is mixed-case (authorization normalizes
it, the session `updateOne` does not). -/
def mixedCaseUser : Requester := ⟨"User@example.com".data, none⟩

/-- Upload context fixture: the example session, an always-succeeding
storage put, a fixed ObjectId supply. -/
def c6ctx : UploadCtx :=
  { maxFileSizeMb := 25, bucket := "bucket".data, sessionId := "AAAAAAA2".data,
    session := exampleSession, hintsByKey := [],
    idSupply := fun _ => "5f4e3d2c1b0a99887766554b".data,
    storagePut := fun _ => none, now := 50 }

/-- A fresh-named PDF upload. -/
def c6fileB : MultipartFile :=
  ⟨some "b.pdf".data, "application/pdf", 10, some "x".data⟩

/-- An upload whose name collides with the stored `a.pdf`. -/
def c6fileDupA : MultipartFile :=
  ⟨some "a.pdf".data, "application/pdf", 10, some "x".data⟩

/-- A two-file request against `maxFiles = 1`: the name-colliding file sits
in the truncated tail of the batch. -/
def c6run : Except HttpError (UploadFilesResponse × DBState) :=
  uploadFilesToSession 1 c6ctx exampleState normalizedUser [c6fileB, c6fileDupA] []

/-- A one-file request within the cap. -/
def c6goodRun : Except HttpError (UploadFilesResponse × DBState) :=
  uploadFilesToSession 10 c6ctx exampleState normalizedUser [c6fileB] []

-- ===================================================================
-- Theorems
-- ===================================================================

theorem coverageVal_snd_pos (e : ScoreEntry) : 0 < (coverageVal e).2 := by
  unfold coverageVal
  split <;> simp_all

theorem specCoverage_eq_coverageVal (e : ScoreEntry) :
    specCoverage e = ((coverageVal e).1 : ℚ) / ((coverageVal e).2 : ℚ) := by
  unfold specCoverage coverageVal
  split
  · rfl
  · rename_i h
    have ht : e.totalKeywords = 0 := by omega
    simp [ht]

theorem coverageLt_iff (a b : ScoreEntry) :
    coverageLt a b = true ↔ specCoverage a < specCoverage b := by
  rw [specCoverage_eq_coverageVal a, specCoverage_eq_coverageVal b]
  have ha : (0 : ℚ) < ((coverageVal a).2 : ℚ) := by
    exact_mod_cast coverageVal_snd_pos a
  have hb : (0 : ℚ) < ((coverageVal b).2 : ℚ) := by
    exact_mod_cast coverageVal_snd_pos b
  rw [div_lt_div_iff₀ ha hb]
  unfold coverageLt
  rw [decide_eq_true_iff]
  exact_mod_cast Iff.rfl

theorem coverageEq_iff (a b : ScoreEntry) :
    coverageEq a b = true ↔ specCoverage a = specCoverage b := by
  rw [specCoverage_eq_coverageVal a, specCoverage_eq_coverageVal b]
  have ha : ((coverageVal a).2 : ℚ) ≠ 0 := by
    have := coverageVal_snd_pos a; positivity
  have hb : ((coverageVal b).2 : ℚ) ≠ 0 := by
    have := coverageVal_snd_pos b; positivity
  rw [div_eq_div_iff ha hb]
  unfold coverageEq
  rw [decide_eq_true_iff]
  exact_mod_cast Iff.rfl

theorem sortsBefore_iff (a b : ScoreEntry) :
    sortsBefore a b = true ↔ specRanksHigher a b := by
  unfold sortsBefore specRanksHigher
  split_ifs with h1 h2 h3
  · rw [decide_eq_true_iff]
    constructor
    · exact fun h => Or.inl h
    · rintro (h | ⟨h1', -⟩)
      · exact h
      · exact absurd h1' h1
  · have h1' : a.uniqueKeywordMatches = b.uniqueKeywordMatches := not_not.mp h1
    rw [decide_eq_true_iff]
    constructor
    · exact fun h => Or.inr ⟨h1', Or.inl h⟩
    · rintro (h | ⟨-, h | ⟨h2', -⟩⟩)
      · omega
      · exact h
      · exact absurd h2' h2
  · have h1' : a.uniqueKeywordMatches = b.uniqueKeywordMatches := not_not.mp h1
    have h2' : a.mentionScore = b.mentionScore := not_not.mp h2
    have h3' : specCoverage a = specCoverage b := (coverageEq_iff a b).mp h3
    rw [decide_eq_true_iff]
    constructor
    · exact fun h => Or.inr ⟨h1', Or.inr ⟨h2', Or.inr ⟨h3', h⟩⟩⟩
    · rintro (h | ⟨-, h | ⟨-, h | ⟨-, h⟩⟩⟩)
      · omega
      · omega
      · exact absurd (h3' ▸ h) (lt_irrefl _)
      · exact h
  · have h1' : a.uniqueKeywordMatches = b.uniqueKeywordMatches := not_not.mp h1
    have h2' : a.mentionScore = b.mentionScore := not_not.mp h2
    rw [coverageLt_iff]
    constructor
    · exact fun h => Or.inr ⟨h1', Or.inr ⟨h2', Or.inl h⟩⟩
    · rintro (h | ⟨-, h | ⟨-, h | ⟨heq, -⟩⟩⟩)
      · omega
      · omega
      · exact h
      · exact absurd ((coverageEq_iff a b).mpr heq) h3

theorem specRanksHigher_iff_rankKey (a b : ScoreEntry) :
    specRanksHigher a b ↔ rankKey b < rankKey a := by
  unfold specRanksHigher rankKey
  rw [Prod.Lex.lt_iff, Prod.Lex.lt_iff, Prod.Lex.lt_iff]
  constructor
  · rintro (h | ⟨h1, h | ⟨h2, h | ⟨h3, h4⟩⟩⟩)
    · exact Or.inl h
    · exact Or.inr ⟨h1.symm, Or.inl h⟩
    · exact Or.inr ⟨h1.symm, Or.inr ⟨h2.symm, Or.inl h⟩⟩
    · exact Or.inr ⟨h1.symm, Or.inr ⟨h2.symm, Or.inr ⟨h3.symm, h4⟩⟩⟩
  · rintro (h | ⟨h1, h | ⟨h2, h | ⟨h3, h4⟩⟩⟩)
    · exact Or.inl h
    · exact Or.inr ⟨h1.symm, Or.inl h⟩
    · exact Or.inr ⟨h1.symm, Or.inr ⟨h2.symm, Or.inl h⟩⟩
    · exact Or.inr ⟨h1.symm, Or.inr ⟨h2.symm, Or.inr ⟨h3.symm, h4⟩⟩⟩

theorem sortsBefore_iff_rankKey (a b : ScoreEntry) :
    sortsBefore a b = true ↔ rankKey b < rankKey a := by
  rw [sortsBefore_iff, specRanksHigher_iff_rankKey]

theorem pickBetter_pos {x c : ScoreEntry} (h : sortsBefore c x = true) :
    pickBetter x c = c := by
  unfold pickBetter
  rw [if_pos h]

theorem pickBetter_neg {x c : ScoreEntry} (h : ¬ sortsBefore c x = true) :
    pickBetter x c = x := by
  unfold pickBetter
  rw [if_neg h]

theorem selectFold_mem (x : ScoreEntry) (xs : List ScoreEntry) :
    xs.foldl pickBetter x ∈ x :: xs := by
  induction xs generalizing x with
  | nil => simp
  | cons c0 xs ih =>
    rw [List.foldl_cons]
    by_cases h : sortsBefore c0 x
    · rw [pickBetter_pos h]
      rcases List.mem_cons.mp (ih c0) with h' | h'
      · rw [h']
        exact List.mem_cons_of_mem _ (List.mem_cons_self _ _)
      · exact List.mem_cons_of_mem _ (List.mem_cons_of_mem _ h')
    · rw [pickBetter_neg h]
      rcases List.mem_cons.mp (ih x) with h' | h'
      · rw [h']
        exact List.mem_cons_self _ _
      · exact List.mem_cons_of_mem _ (List.mem_cons_of_mem _ h')

theorem selectFold_max (x : ScoreEntry) (xs : List ScoreEntry) :
    ∀ c ∈ x :: xs, ¬ (rankKey (xs.foldl pickBetter x) < rankKey c) := by
  induction xs generalizing x with
  | nil =>
    intro c hc
    rw [List.mem_singleton] at hc
    subst hc
    exact lt_irrefl _
  | cons c0 xs ih =>
    intro c hc
    rw [List.foldl_cons]
    by_cases h : sortsBefore c0 x
    · have hx0 : rankKey x < rankKey c0 := (sortsBefore_iff_rankKey c0 x).mp h
      rw [pickBetter_pos h]
      rcases List.mem_cons.mp hc with h' | h'
      · subst h'
        intro hlt
        exact ih c0 c0 (List.mem_cons_self _ _) (hlt.trans hx0)
      · exact ih c0 c h'
    · have hx0 : rankKey c0 ≤ rankKey x :=
        le_of_not_lt fun hlt => h ((sortsBefore_iff_rankKey c0 x).mpr hlt)
      rw [pickBetter_neg h]
      have hxr : rankKey x ≤ rankKey (xs.foldl pickBetter x) :=
        le_of_not_lt (ih x x (List.mem_cons_self _ _))
      rcases List.mem_cons.mp hc with h' | h'
      · subst h'
        exact ih c c (List.mem_cons_self _ _)
      · rcases List.mem_cons.mp h' with h'' | h''
        · subst h''
          exact not_lt.mpr (hx0.trans hxr)
        · exact ih x c (List.mem_cons_of_mem _ h'')

theorem selectFold_first (x : ScoreEntry) (xs : List ScoreEntry) :
    ∃ l₁ l₂, x :: xs = l₁ ++ (xs.foldl pickBetter x) :: l₂ ∧
      ∀ a ∈ l₁, ∃ c ∈ x :: xs, rankKey a < rankKey c := by
  induction xs generalizing x with
  | nil => exact ⟨[], [], rfl, by simp⟩
  | cons c0 xs ih =>
    rw [List.foldl_cons]
    by_cases h : sortsBefore c0 x
    · have hx0 : rankKey x < rankKey c0 := (sortsBefore_iff_rankKey c0 x).mp h
      rw [pickBetter_pos h]
      obtain ⟨l₁, l₂, hdec, hbeat⟩ := ih c0
      refine ⟨x :: l₁, l₂, by rw [List.cons_append, ← hdec], ?_⟩
      intro a ha
      rcases List.mem_cons.mp ha with h' | h'
      · subst h'
        exact ⟨c0, List.mem_cons_of_mem _ (List.mem_cons_self _ _), hx0⟩
      · obtain ⟨c, hc, hlt⟩ := hbeat a h'
        exact ⟨c, List.mem_cons_of_mem _ hc, hlt⟩
    · have hx0 : rankKey c0 ≤ rankKey x :=
        le_of_not_lt fun hlt => h ((sortsBefore_iff_rankKey c0 x).mpr hlt)
      rw [pickBetter_neg h]
      obtain ⟨l₁, l₂, hdec, hbeat⟩ := ih x
      cases l₁ with
      | nil =>
        have hx : x = xs.foldl pickBetter x := by
          simpa using congrArg (fun l => l.head?) hdec
        have hxs : xs = l₂ := by
          simpa using congrArg (fun l => l.tail) hdec
        refine ⟨[], c0 :: l₂, ?_, by simp⟩
        rw [List.nil_append, ← hx, hxs]
      | cons b l₁' =>
        have hb : x = b := by
          simpa using congrArg (fun l => l.head?) hdec
        subst hb
        have hxs : xs = l₁' ++ (xs.foldl pickBetter x) :: l₂ := by
          simpa using congrArg (fun l => l.tail) hdec
        obtain ⟨cb, hcb, hcblt⟩ := hbeat x (List.mem_cons_self _ _)
        have hcb' : cb ∈ x :: c0 :: xs := by
          rcases List.mem_cons.mp hcb with hm | hm
          · rw [hm]
            exact List.mem_cons_self _ _
          · exact List.mem_cons_of_mem _ (List.mem_cons_of_mem _ hm)
        refine ⟨x :: c0 :: l₁', l₂,
          by rw [List.cons_append, List.cons_append, ← hxs], ?_⟩
        intro a ha
        rcases List.mem_cons.mp ha with h' | h'
        · subst h'
          exact ⟨cb, hcb', hcblt⟩
        · rcases List.mem_cons.mp h' with h'' | h''
          · subst h''
            exact ⟨cb, hcb', lt_of_le_of_lt hx0 hcblt⟩
          · obtain ⟨c, hc, hlt⟩ := hbeat a (List.mem_cons_of_mem _ h'')
            have hc' : c ∈ x :: c0 :: xs := by
              rcases List.mem_cons.mp hc with hm | hm
              · rw [hm]
                exact List.mem_cons_self _ _
              · exact List.mem_cons_of_mem _ (List.mem_cons_of_mem _ hm)
            exact ⟨c, hc', hlt⟩

theorem find?_append_cons {α : Type} (p : α → Bool) (l₁ : List α) (r : α) (l₂ : List α)
    (h₁ : ∀ a ∈ l₁, p a = false) (hr : p r = true) :
    (l₁ ++ r :: l₂).find? p = some r := by
  induction l₁ with
  | nil => simp [List.find?_cons_of_pos, hr]
  | cons a l ih =>
    rw [List.cons_append, List.find?_cons_of_neg]
    · exact ih fun a' ha' => h₁ a' (List.mem_cons_of_mem _ ha')
    · simp [h₁ a (List.mem_cons_self _ _)]

theorem selectWinner_eq_specWinner (l : List ScoreEntry) :
    selectWinner l = specWinner l := by
  cases l with
  | nil => rfl
  | cons x xs =>
    obtain ⟨l₁, l₂, hdec, hbeat⟩ := selectFold_first x xs
    have hmax := selectFold_max x xs
    have hsel : selectWinner (x :: xs) = some (xs.foldl pickBetter x) := rfl
    rw [hsel]
    unfold specWinner
    rw [hdec]
    refine (find?_append_cons _ l₁ _ l₂ ?_ ?_).symm
    · intro a ha
      obtain ⟨c, hc, hlt⟩ := hbeat a ha
      have hc2 : c ∈ l₁ ++ (xs.foldl pickBetter x) :: l₂ := hdec ▸ hc
      apply Bool.eq_false_iff.mpr
      intro hall
      rw [List.all_eq_true] at hall
      have hca := hall c hc2
      rw [decide_eq_true_iff] at hca
      exact hca ((specRanksHigher_iff_rankKey c a).mpr hlt)
    · rw [List.all_eq_true]
      intro c hc
      rw [decide_eq_true_iff]
      intro hhigh
      have hc' : c ∈ x :: xs := hdec.symm ▸ hc
      exact hmax c hc' ((specRanksHigher_iff_rankKey c _).mp hhigh)

theorem specConfidence_eq_confidence (u t : Nat) :
    specConfidenceHundredths u t = confidenceHundredths u t := by
  unfold specConfidenceHundredths confidenceHundredths
  rcases Nat.eq_zero_or_pos t with ht | ht
  · subst ht
    norm_num
  · rw [if_pos ht]
    have htQ : (t : ℚ) ≠ 0 := by positivity
    have hcast : (100 * u : ℚ) / (t : ℚ) + 1 / 2 =
        ((200 * u + t : ℕ) : ℚ) / ((2 * t : ℕ) : ℚ) := by
      push_cast
      field_simp
      ring
    rw [round_eq, hcast, Int.floor_toNat, Nat.floor_div_nat, Nat.floor_natCast]

theorem selectWinner_mem {l : List ScoreEntry} {w : ScoreEntry}
    (h : selectWinner l = some w) : w ∈ l := by
  cases l with
  | nil => exact absurd h (by simp [selectWinner])
  | cons x xs =>
    have hw : xs.foldl pickBetter x = w := by
      have := h
      unfold selectWinner at this
      exact Option.some.inj this
    rw [← hw]
    exact selectFold_mem x xs

theorem countOccAux_pos_infix (kw : List Char) (fuel : Nat) (text : List Char)
    (h : 0 < countOccAux kw fuel text) : kw <:+: text := by
  induction fuel generalizing text with
  | zero => simp [countOccAux] at h
  | succ fuel ih =>
    cases text with
    | nil => simp [countOccAux] at h
    | cons c rest =>
      rw [countOccAux] at h
      by_cases hp : kw.isPrefixOf (c :: rest)
      · exact (List.isPrefixOf_iff_prefix.mp hp).isInfix
      · rw [if_neg hp] at h
        exact List.infix_cons (ih rest h)

theorem countKeywordOccurrences_pos_includes (text kw : List Char)
    (h : 0 < countKeywordOccurrences text kw) : textIncludes text kw = true := by
  unfold textIncludes
  rw [decide_eq_true_iff]
  exact countOccAux_pos_infix kw text.length text h

theorem mentionScore_pos_unique (text : List Char) (t : StatementType)
    (h : 0 < (scoreEntryFor text t).mentionScore) :
    0 < (scoreEntryFor text t).uniqueKeywordMatches := by
  unfold scoreEntryFor at h ⊢
  simp only at h ⊢
  rcases Nat.eq_zero_or_pos (((statementKeywords t).map
      (countKeywordOccurrences text)).sum) with hz | hpos
  · omega
  · have : ∃ kw ∈ statementKeywords t, 0 < countKeywordOccurrences text kw := by
      by_contra hall
      push_neg at hall
      have hzero : ((statementKeywords t).map (countKeywordOccurrences text)).sum = 0 := by
        rw [List.sum_eq_zero_iff]
        intro x hx
        rw [List.mem_map] at hx
        obtain ⟨kw, hkw, hxeq⟩ := hx
        have := hall kw hkw
        omega
      omega
    obtain ⟨kw, hkw, hcnt⟩ := this
    rw [List.countP_pos_iff]
    exact ⟨kw, hkw, countKeywordOccurrences_pos_includes text kw hcnt⟩

theorem mem_scoredEntries (text : List Char) (e : ScoreEntry)
    (he : e ∈ scoredEntries text) :
    e = scoreEntryFor text .credit ∨ e = scoreEntryFor text .checking ∨
      e = scoreEntryFor text .savings := by
  unfold scoredEntries at he
  simp only [List.mem_map, List.mem_cons, List.mem_singleton] at he
  obtain ⟨t, ht, hte⟩ := he
  rcases ht with h | h | h | h
  · exact Or.inl (hte ▸ h ▸ rfl)
  · exact Or.inr (Or.inl (hte ▸ h ▸ rfl))
  · exact Or.inr (Or.inr (hte ▸ h ▸ rfl))
  · exact absurd h (by simp)

theorem candidate_shape (text : List Char) (e : ScoreEntry)
    (he : e ∈ candidateEntries text) :
    (e = scoreEntryFor text .credit ∨ e = scoreEntryFor text .checking ∨
        e = scoreEntryFor text .savings) ∧ 0 < e.uniqueKeywordMatches := by
  unfold candidateEntries at he
  rw [List.mem_filter] at he
  obtain ⟨hmem, hcond⟩ := he
  have hshape := mem_scoredEntries text e hmem
  refine ⟨hshape, ?_⟩
  rw [Bool.or_eq_true, decide_eq_true_iff, decide_eq_true_iff] at hcond
  rcases hcond with h | h
  · exact h
  · rcases hshape with he' | he' | he' <;> (rw [he'] at h ⊢; exact mentionScore_pos_unique text _ h)

theorem candidate_total_pos (text : List Char) (e : ScoreEntry)
    (he : e ∈ candidateEntries text) : 0 < e.totalKeywords ∧ e.totalKeywords ≤ 4 := by
  obtain ⟨hshape, -⟩ := candidate_shape text e he
  rcases hshape with h | h | h <;> (rw [h]; simp [scoreEntryFor, statementKeywords])

theorem candidate_unique_le_total (text : List Char) (e : ScoreEntry)
    (he : e ∈ candidateEntries text) : e.uniqueKeywordMatches ≤ e.totalKeywords := by
  obtain ⟨hshape, -⟩ := candidate_shape text e he
  rcases hshape with h | h | h <;>
    (rw [h]; simp only [scoreEntryFor]; exact List.countP_le_length _)

theorem candidate_type_known (text : List Char) (e : ScoreEntry)
    (he : e ∈ candidateEntries text) : e.type ≠ StatementType.unknown := by
  obtain ⟨hshape, -⟩ := candidate_shape text e he
  rcases hshape with h | h | h <;> (rw [h]; simp [scoreEntryFor])

theorem confidence_bounds (u t : Nat) (h1 : 1 ≤ u) (h2 : u ≤ t) (h3 : t ≤ 4) :
    25 ≤ confidenceHundredths u t ∧ confidenceHundredths u t ≤ 100 := by
  unfold confidenceHundredths
  rw [if_pos (by omega)]
  interval_cases t <;> interval_cases u <;> decide

/-- C3: for every input text, `detectStatementTypeFromText` equals the spec's
reference algorithm: empty text or no positively-scoring category gives
`{unknown, 0, false}`; otherwise the candidate maximal under the ordering
(uniqueKeywordMatches desc, mentionScore desc, coverage desc, fixed priority
credit > checking > savings) wins, with `detectionConfidence` equal to the
coverage ratio rounded to 2 decimals and `isLikelyStatement = true`. -/
theorem C3_classifier_equals_spec_reference (text : List Char) :
    detectStatementTypeFromText text = specDetect text := by
  unfold detectStatementTypeFromText specDetect
  rw [← selectWinner_eq_specWinner]
  by_cases h : text = []
  · rw [if_pos h, if_pos h]
  · rw [if_neg h, if_neg h]
    cases hw : selectWinner (candidateEntries text) with
    | none => rfl
    | some w => simp [specConfidence_eq_confidence]

theorem coverage_ne_of_total_ne (a b : ScoreEntry)
    (hu : a.uniqueKeywordMatches = b.uniqueKeywordMatches)
    (hpos : 0 < a.uniqueKeywordMatches)
    (hta : 0 < a.totalKeywords) (htb : 0 < b.totalKeywords)
    (hne : a.totalKeywords ≠ b.totalKeywords) :
    specCoverage a ≠ specCoverage b := by
  intro heq
  unfold specCoverage at heq
  rw [div_eq_div_iff (by positivity) (by positivity)] at heq
  rw [hu] at heq hpos
  have hbu : ((b.uniqueKeywordMatches : ℚ)) ≠ 0 := by positivity
  have ht : ((b.totalKeywords : ℚ)) = ((a.totalKeywords : ℚ)) :=
    mul_left_cancel₀ hbu heq
  exact hne (by exact_mod_cast ht.symm)

theorem candidates_no_full_tie (text : List Char) (a b : ScoreEntry)
    (ha : a ∈ candidateEntries text) (hb : b ∈ candidateEntries text) (hne : a ≠ b) :
    ¬ (a.uniqueKeywordMatches = b.uniqueKeywordMatches ∧
        a.mentionScore = b.mentionScore ∧ specCoverage a = specCoverage b) := by
  rintro ⟨hu, -, hcov⟩
  obtain ⟨hsa, hpa⟩ := candidate_shape text a ha
  obtain ⟨hsb, hpb⟩ := candidate_shape text b hb
  have htot : a.totalKeywords ≠ b.totalKeywords := by
    rcases hsa with h1 | h1 | h1 <;> rcases hsb with h2 | h2 | h2 <;>
      first
        | exact absurd (h1.trans h2.symm) hne
        | (rw [h1, h2]; simp [scoreEntryFor, statementKeywords])
  exact coverage_ne_of_total_ne a b hu hpa
    (candidate_total_pos text a ha).1 (candidate_total_pos text b hb).1 htot hcov

/-- C4 counterexample: the claimed craftable tie input does not exist — no
input text yields two distinct candidate categories agreeing on all of
`uniqueKeywordMatches`, `mentionScore` and coverage ratio, because equal
positive `uniqueKeywordMatches` over the pairwise-distinct keyword-list sizes
(4, 3, 2) force distinct coverage ratios. -/
theorem C4_counterexample :
    ¬ ∃ (text : List Char) (a b : ScoreEntry),
        a ∈ candidateEntries text ∧ b ∈ candidateEntries text ∧ a ≠ b ∧
          a.uniqueKeywordMatches = b.uniqueKeywordMatches ∧
          a.mentionScore = b.mentionScore ∧ specCoverage a = specCoverage b := by
  rintro ⟨text, a, b, ha, hb, hne, hu, hm, hcov⟩
  exact candidates_no_full_tie text a b ha hb hne ⟨hu, hm, hcov⟩

/-- C4 (amended): no input text makes two distinct candidate categories tie on
all of `uniqueKeywordMatches`, `mentionScore` and coverage ratio (the keyword
lists have pairwise-distinct sizes, so the fixed-priority tie-break is
unreachable); nevertheless the comparator itself, fed entries tied on all
three keys, deterministically prefers the higher fixed priority
credit > checking > savings. -/
theorem C4_tiebreak_priority :
    (∀ (text : List Char) (a b : ScoreEntry),
        a ∈ candidateEntries text → b ∈ candidateEntries text → a ≠ b →
          ¬ (a.uniqueKeywordMatches = b.uniqueKeywordMatches ∧
              a.mentionScore = b.mentionScore ∧ specCoverage a = specCoverage b)) ∧
      (∀ a b : ScoreEntry, a.uniqueKeywordMatches = b.uniqueKeywordMatches →
          a.mentionScore = b.mentionScore → specCoverage a = specCoverage b →
          (sortsBefore a b = true ↔
            statementTypePriority b.type < statementTypePriority a.type)) := by
  constructor
  · exact candidates_no_full_tie
  · intro a b hu hm hcov
    rw [sortsBefore_iff]
    constructor
    · rintro (h | ⟨-, h | ⟨-, h | ⟨-, h⟩⟩⟩)
      · omega
      · omega
      · exact absurd (hcov ▸ h) (lt_irrefl _)
      · exact h
    · intro h
      exact Or.inr ⟨hu, Or.inr ⟨hm, Or.inr ⟨hcov, h⟩⟩⟩

/-- Witness for C4: applies the theorem at the concrete input
`"deposits interest earned"` (two surviving candidates, checking and savings)
and at two concrete entries tied on all three keys. -/
theorem C4_tiebreak_priority_witness :
    (¬ ((scoreEntryFor ("deposits interest earned".data) .checking).uniqueKeywordMatches =
          (scoreEntryFor ("deposits interest earned".data) .savings).uniqueKeywordMatches ∧
        (scoreEntryFor ("deposits interest earned".data) .checking).mentionScore =
          (scoreEntryFor ("deposits interest earned".data) .savings).mentionScore ∧
        specCoverage (scoreEntryFor ("deposits interest earned".data) .checking) =
          specCoverage (scoreEntryFor ("deposits interest earned".data) .savings))) ∧
      (sortsBefore ⟨.credit, 1, 1, 4⟩ ⟨.checking, 1, 1, 4⟩ = true ↔
        statementTypePriority StatementType.checking <
          statementTypePriority StatementType.credit) :=
  ⟨C4_tiebreak_priority.1 ("deposits interest earned".data) _ _
      (by decide) (by decide) (by decide),
    C4_tiebreak_priority.2 ⟨.credit, 1, 1, 4⟩ ⟨.checking, 1, 1, 4⟩ rfl rfl rfl⟩

/-- C10: the classifier's output triple is internally coherent on every input:
the detected type is `unknown` exactly when the confidence is 0 and exactly
when `isLikelyStatement` is false, and a detected category always has
confidence in [0.25, 1] (every surviving candidate has at least one unique
keyword match and no keyword list exceeds 4 entries). -/
theorem C10_detect_output_coherent (text : List Char) :
    ((detectStatementTypeFromText text).autoDetectedType = StatementType.unknown ↔
        (detectStatementTypeFromText text).detectionConfidence = 0) ∧
      ((detectStatementTypeFromText text).autoDetectedType = StatementType.unknown ↔
        (detectStatementTypeFromText text).isLikelyStatement = false) ∧
      ((detectStatementTypeFromText text).autoDetectedType ≠ StatementType.unknown →
        1 / 4 ≤ ((detectStatementTypeFromText text).detectionConfidence : ℚ) / 100 ∧
          ((detectStatementTypeFromText text).detectionConfidence : ℚ) / 100 ≤ 1) := by
  unfold detectStatementTypeFromText
  by_cases h : text = []
  · rw [if_pos h]
    exact ⟨by simp, by simp, fun hne => absurd rfl hne⟩
  · rw [if_neg h]
    cases hw : selectWinner (candidateEntries text) with
    | none => exact ⟨by simp, by simp, fun hne => absurd rfl hne⟩
    | some w =>
      have hmem : w ∈ candidateEntries text := selectWinner_mem hw
      have hu1 : 0 < w.uniqueKeywordMatches := (candidate_shape text w hmem).2
      have hut : w.uniqueKeywordMatches ≤ w.totalKeywords :=
        candidate_unique_le_total text w hmem
      have ht4 : w.totalKeywords ≤ 4 := (candidate_total_pos text w hmem).2
      have hb := confidence_bounds w.uniqueKeywordMatches w.totalKeywords hu1 hut ht4
      have htype : w.type ≠ StatementType.unknown := candidate_type_known text w hmem
      refine ⟨?_, ?_, ?_⟩
      · constructor
        · intro hty
          exact absurd hty htype
        · intro hc
          exact absurd
            (show confidenceHundredths w.uniqueKeywordMatches w.totalKeywords = 0 from hc)
            (by omega)
      · constructor
        · intro hty
          exact absurd hty htype
        · intro hf
          have hf' : true = false := hf
          exact absurd hf' (by decide)
      · intro _
        constructor
        · show (1 : ℚ) / 4 ≤
            (confidenceHundredths w.uniqueKeywordMatches w.totalKeywords : ℚ) / 100
          rw [show (1 : ℚ) / 4 = 25 / 100 by norm_num]
          gcongr
          exact_mod_cast hb.1
        · show (confidenceHundredths w.uniqueKeywordMatches w.totalKeywords : ℚ) / 100 ≤ 1
          rw [show (1 : ℚ) = 100 / 100 by norm_num]
          gcongr
          exact_mod_cast hb.2

/-- Witness for C10: the implication's hypothesis discharged at the concrete
input `"savings account"`, where a category is detected. -/
theorem C10_detect_output_coherent_witness :
    1 / 4 ≤ ((detectStatementTypeFromText ("savings account".data)).detectionConfidence : ℚ) / 100 ∧
      ((detectStatementTypeFromText ("savings account".data)).detectionConfidence : ℚ) / 100 ≤ 1 :=
  (C10_detect_output_coherent ("savings account".data)).2.2 (by decide)

theorem isValidType_iff (v : String) :
    isValidType v = true ↔ (v = "continue_session" ∨ v = "find_sessions") := by
  unfold isValidType
  simp

/-- C1 counterexample: the very `session_bootstrap` payload that
`createSession` mints and returns to the client is rejected by
`validateAccessToken` with the generic invalid-token error —
`JwtStrategy.isValidType` recognizes only `continue_session` and
`find_sessions`, contradicting the claim that bootstrap payloads are
accepted. -/
theorem C1_counterexample :
    validateAccessToken (createSessionBootstrapPayload "user@example.com" "BBBBBBB3") =
      .error invalidAccessTokenError := rfl

/-- C1 (amended): bearer-token payload verification accepts exactly the
payloads with a present non-empty email, a type in {continue_session,
find_sessions} — a `session_bootstrap` payload, including the one
`createSession` mints, is rejected like any unrecognized type — and, for
`continue_session`, a present non-empty sessionId; accepted payloads are
returned unchanged, and every rejection carries the same generic 401
invalid-token error. -/
theorem C1_validateAccessToken_characterization (p : AccessTokenPayload) :
    (validateAccessToken p = .ok p ↔
      (optStringTruthy p.email = true ∧
        (p.type = "continue_session" ∨ p.type = "find_sessions") ∧
        (p.type = "continue_session" → optStringTruthy p.sessionId = true))) ∧
      (validateAccessToken p = .ok p ∨
        validateAccessToken p = .error invalidAccessTokenError) := by
  unfold validateAccessToken
  split_ifs with h1 h2
  · rw [Bool.or_eq_true, Bool.not_eq_true', Bool.not_eq_true'] at h1
    constructor
    · constructor
      · intro habs
        exact absurd habs (by simp)
      · rintro ⟨hem, hty, -⟩
        rcases h1 with h | h
        · rw [hem] at h
          exact absurd h (by simp)
        · rw [(isValidType_iff p.type).mpr hty] at h
          exact absurd h (by simp)
    · exact Or.inr rfl
  · rw [Bool.and_eq_true, beq_iff_eq, Bool.not_eq_true'] at h2
    constructor
    · constructor
      · intro habs
        exact absurd habs (by simp)
      · rintro ⟨-, -, himp⟩
        rw [himp h2.1] at h2
        exact absurd h2.2 (by simp)
    · exact Or.inr rfl
  · rw [Bool.or_eq_true, Bool.not_eq_true', Bool.not_eq_true'] at h1
    push_neg at h1
    rw [Bool.and_eq_true, beq_iff_eq, Bool.not_eq_true'] at h2
    push_neg at h2
    constructor
    · constructor
      · intro _
        refine ⟨by simpa using h1.1, (isValidType_iff p.type).mp (by simpa using h1.2), ?_⟩
        intro hcs
        simpa using h2 hcs
      · intro _
        rfl
    · exact Or.inl rfl

/-- Witness for C1: a well-formed `continue_session` payload is accepted
unchanged. -/
theorem C1_validateAccessToken_witness :
    validateAccessToken
        { email := some "user@example.com", sessionId := some "AAAAAAA2",
          type := "continue_session" } =
      Except.ok
        { email := some "user@example.com", sessionId := some "AAAAAAA2",
          type := "continue_session" } :=
  (C1_validateAccessToken_characterization _).1.mpr (by decide)

/-- C9 counterexample: with `JWT_EXPIRES_IN = "banana"` the AuthService
signing path uses the raw string `"banana"` — neither a valid format nor the
1-hour default — and with `JWT_EXPIRES_IN = "0s"` the bootstrap signing path
uses `"0s"`, a non-positive duration, so the claimed validate-with-fallback
property fails as stated. -/
theorem C9_counterexample :
    (getJwtExpiresIn (some "banana".data) = "banana".data ∧
      claimValidExpiry "banana".data = false ∧ "banana".data ≠ "1h".data) ∧
      (getBootstrapAccessTokenExpiresIn (some "0s".data) = "0s".data ∧
        claimValidExpiry "0s".data = false ∧ "0s".data ≠ "1h".data) := by
  decide

/-- C9 (amended): only the session-bootstrap signing path validates
`JWT_EXPIRES_IN` — the expiry string it signs with is always either a
canonical positive integer (raw seconds), a lowercased whitespace-stripped
digits+s/m/h/d timespan (possibly zero, e.g. `0s`), or the default `1h` when
the configured value is invalid or absent; the AuthService signing path
passes any non-empty trimmed configured value through unvalidated, using the
default only for a missing or blank value. -/
theorem C9_expiry_validation (cfg : Option (List Char)) :
    (isCanonicalPosInt (getBootstrapAccessTokenExpiresIn cfg) = true ∨
      matchesTimespan (getBootstrapAccessTokenExpiresIn cfg) = true ∨
      getBootstrapAccessTokenExpiresIn cfg = "1h".data) ∧
      (∀ raw : List Char, cfg = some raw → trimChars raw ≠ [] →
        getJwtExpiresIn cfg = trimChars raw) ∧
      ((cfg = none ∨ ∃ raw, cfg = some raw ∧ trimChars raw = []) →
        getJwtExpiresIn cfg = "1h".data) := by
  refine ⟨?_, ?_, ?_⟩
  · cases hs : getSanitizedEnvValue cfg with
    | none =>
      have hred : getBootstrapAccessTokenExpiresIn cfg = DEFAULT_BOOTSTRAP_EXPIRES_IN := by
        unfold getBootstrapAccessTokenExpiresIn
        rw [hs]
      rw [hred]
      exact Or.inr (Or.inr rfl)
    | some raw =>
      have hred : getBootstrapAccessTokenExpiresIn cfg =
          (if isCanonicalPosInt raw then raw
           else if matchesTimespan ((raw.map Char.toLower).filter (fun c => !c.isWhitespace)) then
             (raw.map Char.toLower).filter (fun c => !c.isWhitespace)
           else DEFAULT_BOOTSTRAP_EXPIRES_IN) := by
        unfold getBootstrapAccessTokenExpiresIn
        rw [hs]
      rw [hred]
      by_cases hc : isCanonicalPosInt raw
      · rw [if_pos hc]
        exact Or.inl hc
      · rw [if_neg hc]
        by_cases hm : matchesTimespan ((raw.map Char.toLower).filter (fun c => !c.isWhitespace))
        · rw [if_pos hm]
          exact Or.inr (Or.inl hm)
        · rw [if_neg hm]
          exact Or.inr (Or.inr rfl)
  · intro raw hcfg hne
    subst hcfg
    unfold getJwtExpiresIn
    simp only [if_neg hne]
  · intro hcase
    rcases hcase with h | ⟨raw, hcfg, hraw⟩
    · subst h
      rfl
    · subst hcfg
      unfold getJwtExpiresIn
      simp only [if_pos hraw]

/-- Witness for C9: the AuthService path passes the (valid) value `" 30m "`
through trimmed-but-unvalidated, and the blank value falls back to `1h`. -/
theorem C9_expiry_validation_witness :
    getJwtExpiresIn (some " 30m ".data) = trimChars (" 30m ".data) ∧
      getJwtExpiresIn (some "  ".data) = "1h".data :=
  ⟨(C9_expiry_validation (some " 30m ".data)).2.1 (" 30m ".data) rfl (by decide),
    (C9_expiry_validation (some "  ".data)).2.2 (Or.inr ⟨"  ".data, rfl, by decide⟩)⟩

theorem emailTokenConsumable_iff (hash : String) (now : Nat) (d : EmailTokenDoc) :
    emailTokenConsumable hash now d = true ↔
      (d.tokenHash = hash ∧ d.usedAt = none ∧ now < d.expiresAt) := by
  unfold emailTokenConsumable
  simp [and_assoc]

theorem emailTokenConsumable_hash (hash : String) (now : Nat) (d : EmailTokenDoc)
    (h : emailTokenConsumable hash now d = true) : d.tokenHash = hash :=
  ((emailTokenConsumable_iff hash now d).mp h).1

theorem findOneAndConsume_cons_pos (hash : String) (now : Nat) (d : EmailTokenDoc)
    (rest : List EmailTokenDoc) (hc : emailTokenConsumable hash now d = true) :
    findOneAndConsume hash now (d :: rest) =
      (some { d with usedAt := some now }, { d with usedAt := some now } :: rest) := by
  unfold findOneAndConsume
  rw [if_pos hc]

theorem findOneAndConsume_cons_neg (hash : String) (now : Nat) (d : EmailTokenDoc)
    (rest : List EmailTokenDoc) (hc : emailTokenConsumable hash now d = false) :
    findOneAndConsume hash now (d :: rest) =
      ((findOneAndConsume hash now rest).1, d :: (findOneAndConsume hash now rest).2) := by
  conv_lhs => rw [findOneAndConsume]
  rw [if_neg (by simp [hc])]

theorem findOneAndConsume_none_iff (hash : String) (now : Nat) (l : List EmailTokenDoc) :
    (findOneAndConsume hash now l).1 = none ↔
      ∀ d ∈ l, emailTokenConsumable hash now d = false := by
  induction l with
  | nil => simp [findOneAndConsume]
  | cons d rest ih =>
    by_cases hc : emailTokenConsumable hash now d
    · rw [findOneAndConsume_cons_pos hash now d rest hc]
      simp [hc]
    · rw [Bool.not_eq_true] at hc
      rw [findOneAndConsume_cons_neg hash now d rest hc]
      simp only [List.mem_cons]
      constructor
      · intro hnone x hx
        rcases hx with hx | hx
        · rw [hx]
          exact hc
        · exact (ih.mp hnone) x hx
      · intro hall
        exact ih.mpr fun x hx => hall x (Or.inr hx)

theorem findOneAndConsume_some (hash : String) (now : Nat) (l : List EmailTokenDoc)
    (d : EmailTokenDoc) (hres : (findOneAndConsume hash now l).1 = some d) :
    d.usedAt = some now ∧ d ∈ (findOneAndConsume hash now l).2 ∧
      ∃ d₀ ∈ l, emailTokenConsumable hash now d₀ = true ∧
        d = { d₀ with usedAt := some now } := by
  induction l with
  | nil => simp [findOneAndConsume] at hres
  | cons d0 rest ih =>
    by_cases hc : emailTokenConsumable hash now d0
    · rw [findOneAndConsume_cons_pos hash now d0 rest hc] at hres ⊢
      have hd : d = { d0 with usedAt := some now } := by
        simpa using hres.symm
      subst hd
      exact ⟨rfl, List.mem_cons_self _ _, d0, List.mem_cons_self _ _, hc, rfl⟩
    · rw [Bool.not_eq_true] at hc
      rw [findOneAndConsume_cons_neg hash now d0 rest hc] at hres ⊢
      obtain ⟨h1, h2, d₀, hd₀, hcons, heq⟩ := ih hres
      exact ⟨h1, List.mem_cons_of_mem _ h2, d₀, List.mem_cons_of_mem _ hd₀, hcons, heq⟩

theorem consumed_store_not_consumable (hash : String) (now now' : Nat)
    (l : List EmailTokenDoc) (hnodup : (l.map EmailTokenDoc.tokenHash).Nodup)
    (d : EmailTokenDoc) (hres : (findOneAndConsume hash now l).1 = some d) :
    ∀ x ∈ (findOneAndConsume hash now l).2, emailTokenConsumable hash now' x = false := by
  induction l with
  | nil => simp [findOneAndConsume] at hres
  | cons d0 rest ih =>
    rw [List.map_cons, List.nodup_cons] at hnodup
    obtain ⟨hnotin, hnodup'⟩ := hnodup
    by_cases hc : emailTokenConsumable hash now d0
    · have hh : d0.tokenHash = hash := emailTokenConsumable_hash hash now d0 hc
      rw [findOneAndConsume_cons_pos hash now d0 rest hc]
      intro x hx
      rcases List.mem_cons.mp hx with hx | hx
      · rw [hx]
        unfold emailTokenConsumable
        simp
      · have hxh : x.tokenHash ≠ hash := by
          intro hxe
          exact hnotin (hh ▸ hxe ▸ List.mem_map_of_mem EmailTokenDoc.tokenHash hx)
        unfold emailTokenConsumable
        simp [hxh]
    · rw [Bool.not_eq_true] at hc
      rw [findOneAndConsume_cons_neg hash now d0 rest hc] at hres ⊢
      obtain ⟨-, -, d₀, hd₀, hcons, -⟩ := findOneAndConsume_some hash now rest d hres
      have hhash : hash ∈ rest.map EmailTokenDoc.tokenHash :=
        emailTokenConsumable_hash hash now d₀ hcons ▸
          List.mem_map_of_mem EmailTokenDoc.tokenHash hd₀
      have hd0h : d0.tokenHash ≠ hash := fun he => hnotin (he ▸ hhash)
      intro x hx
      rcases List.mem_cons.mp hx with hx | hx
      · rw [hx]
        unfold emailTokenConsumable
        simp [hd0h]
      · exact ih hnodup' hres x hx

/-- C2: email-token consumption is exactly-once.  `verifyToken` succeeds iff
the store holds a token whose hash is `hashFn raw` with `usedAt = null` and
`expiresAt > now`; on success it sets that token's `usedAt`; assuming the
unique index on `tokenHash` (pairwise-distinct hashes), a second back-to-back
call with the same raw token — at any later or even earlier clock reading —
fails with exactly the 400 "Invalid or expired token." error; and that error
is identical for expired, already-used and never-issued tokens. -/
theorem C2_email_token_exactly_once (hashFn : String → String) (now now' : Nat)
    (store : List EmailTokenDoc) (raw : String)
    (hnodup : (store.map EmailTokenDoc.tokenHash).Nodup) :
    ((verifyTokenConsume hashFn now store raw).1.isOk = true ↔
        ∃ d ∈ store, d.tokenHash = hashFn raw ∧ d.usedAt = none ∧ now < d.expiresAt) ∧
      (∀ d, (verifyTokenConsume hashFn now store raw).1 = .ok d →
        d.usedAt = some now ∧ d ∈ (verifyTokenConsume hashFn now store raw).2 ∧
          ∃ d₀ ∈ store, d₀.usedAt = none ∧ d = { d₀ with usedAt := some now }) ∧
      ((verifyTokenConsume hashFn now store raw).1.isOk = true →
        (verifyTokenConsume hashFn now'
            ((verifyTokenConsume hashFn now store raw).2) raw).1 =
          .error invalidTokenError) ∧
      ((¬ ∃ d ∈ store, d.tokenHash = hashFn raw ∧ d.usedAt = none ∧ now < d.expiresAt) →
        (verifyTokenConsume hashFn now store raw).1 = .error invalidTokenError) := by
  cases hres : findOneAndConsume (hashFn raw) now store with
  | mk fst snd =>
    cases fst with
    | none =>
      have hv : verifyTokenConsume hashFn now store raw = (.error invalidTokenError, snd) := by
        unfold verifyTokenConsume
        rw [hres]
      have hall : ∀ d ∈ store, emailTokenConsumable (hashFn raw) now d = false :=
        (findOneAndConsume_none_iff _ _ _).mp (by rw [hres])
      rw [hv]
      refine ⟨?_, ?_, ?_, ?_⟩
      · constructor
        · intro h
          simp [Except.isOk, Except.toBool] at h
        · rintro ⟨d, hd, h1, h2, h3⟩
          have hF := hall d hd
          have hT := (emailTokenConsumable_iff (hashFn raw) now d).mpr ⟨h1, h2, h3⟩
          rw [hT] at hF
          exact absurd hF (by simp)
      · intro d hd
        exact absurd hd (by simp)
      · intro h
        simp [Except.isOk, Except.toBool] at h
      · intro _
        rfl
    | some d =>
      have hv : verifyTokenConsume hashFn now store raw = (.ok d, snd) := by
        unfold verifyTokenConsume
        rw [hres]
      obtain ⟨h1, h2, d₀, hd₀, hcons, heq⟩ :=
        findOneAndConsume_some (hashFn raw) now store d (by rw [hres])
      rw [hres] at h2
      rw [hv]
      refine ⟨?_, ?_, ?_, ?_⟩
      · constructor
        · intro _
          exact ⟨d₀, hd₀, (emailTokenConsumable_iff _ _ _).mp hcons⟩
        · intro _
          rfl
      · intro d' hd'
        have hdd : d = d' := by simpa using hd'
        subst hdd
        exact ⟨h1, h2, d₀, hd₀, ((emailTokenConsumable_iff _ _ _).mp hcons).2.1, heq⟩
      · intro _
        have hnotc := consumed_store_not_consumable (hashFn raw) now now' store hnodup d
          (by rw [hres])
        have hsec : (findOneAndConsume (hashFn raw) now' snd).1 = none := by
          rw [findOneAndConsume_none_iff]
          intro x hx
          exact hnotc x (by rw [hres]; exact hx)
        show (verifyTokenConsume hashFn now' snd raw).1 = .error invalidTokenError
        unfold verifyTokenConsume
        cases hres2 : findOneAndConsume (hashFn raw) now' snd with
        | mk f2 s2 =>
          rw [hres2] at hsec
          have hf2 : f2 = none := hsec
          subst hf2
          rfl
      · intro hno
        exact absurd ⟨d₀, hd₀, (emailTokenConsumable_iff _ _ _).mp hcons⟩ hno

/-- Witness for C2: one stored unused token; the first consume succeeds, the
immediate second consume fails with the generic 400 error. -/
theorem C2_email_token_exactly_once_witness :
    (verifyTokenConsume (fun s => s ++ "#h") 6
        ((verifyTokenConsume (fun s => s ++ "#h") 5
            [{ tokenHash := "tok#h", email := "user@example.com",
               purpose := .continueSession, sessionId := some "AAAAAAA2",
               usedAt := none, expiresAt := 100 }] "tok").2) "tok").1 =
      .error invalidTokenError :=
  (C2_email_token_exactly_once (fun s => s ++ "#h") 5 6
      [{ tokenHash := "tok#h", email := "user@example.com",
         purpose := .continueSession, sessionId := some "AAAAAAA2",
         usedAt := none, expiresAt := 100 }] "tok" (by decide)).2.2.1 (by decide)

theorem requestLink_response (o : RequestOutcomes) :
    (requestLink o).1 = { message := REQUEST_LINK_MESSAGE } := by
  unfold requestLink
  split_ifs <;> rfl

theorem requestSessions_response (o : RequestOutcomes) :
    (requestSessions o).1 = { message := REQUEST_SESSIONS_MESSAGE } := by
  unfold requestSessions
  split_ifs <;> rfl

/-- C7: enumeration prevention as a two-run property — any two executions of
`requestLink` (resp. `requestSessions`), whatever their rate-limit state,
session matches, token persistence or email-delivery outcomes, produce the
identical success-shaped generic response, which never depends on the hidden
state and is never an error. -/
theorem C7_enumeration_prevention (o₁ o₂ : RequestOutcomes) :
    (requestLink o₁).1 = (requestLink o₂).1 ∧
      (requestLink o₁).1 = { message := REQUEST_LINK_MESSAGE } ∧
      (requestSessions o₁).1 = (requestSessions o₂).1 ∧
      (requestSessions o₁).1 = { message := REQUEST_SESSIONS_MESSAGE } :=
  ⟨(requestLink_response o₁).trans (requestLink_response o₂).symm,
    requestLink_response o₁,
    (requestSessions_response o₁).trans (requestSessions_response o₂).symm,
    requestSessions_response o₁⟩

theorem collapseAux_chars (l : List Char) :
    ∀ (b : Bool), ∀ c ∈ collapseAux b l, isSanitizedAlnum c = true ∨ c = '-' := by
  induction l with
  | nil =>
    intro b c hc
    simp [collapseAux] at hc
  | cons x rest ih =>
    intro b c hc
    unfold collapseAux at hc
    by_cases hx : isSanitizedAlnum x
    · rw [if_pos hx] at hc
      rcases List.mem_cons.mp hc with h | h
      · exact Or.inl (h ▸ hx)
      · exact ih false c h
    · rw [if_neg hx] at hc
      cases b with
      | true =>
        rw [if_pos rfl] at hc
        exact ih true c hc
      | false =>
        rw [if_neg (by simp)] at hc
        rcases List.mem_cons.mp hc with h | h
        · exact Or.inr h
        · exact ih true c h

theorem sanitizeFileName_chars (name : List Char) :
    ∀ c ∈ sanitizeFileName name, isSanitizedAlnum c = true ∨ c = '-' := by
  intro c hc
  unfold sanitizeFileName at hc
  dsimp only at hc
  split at hc
  · revert hc
    revert c
    decide
  · have h1 := List.take_subset 80 _ hc
    have h2 := (List.rdropWhile_prefix (l := List.dropWhile (fun c => c == '-')
      (collapseAux false (List.map Char.toLower (trimChars (stripPdfExt name)))))
      (fun c => c == '-')).subset h1
    have h3 := List.dropWhile_subset (fun c => c == '-') h2
    exact collapseAux_chars _ false c h3

theorem sanitizeFileName_no_slash (name : List Char) :
    ∀ c ∈ sanitizeFileName name, ¬ (c = '/') := by
  intro c hc heq
  subst heq
  rcases sanitizeFileName_chars name '/' hc with h | h
  · exact absurd h (by decide)
  · exact absurd h (by decide)

theorem hex_no_slash (s : List Char) (h : isObjectIdHex s = true) :
    ∀ c ∈ s, ¬ (c = '/') := by
  unfold isObjectIdHex at h
  rw [Bool.and_eq_true, List.all_eq_true] at h
  intro c hc heq
  subst heq
  have := h.2 _ hc
  rw [decide_eq_true_iff] at this
  rcases this with ⟨h1, h2⟩ | ⟨h1, h2⟩ <;> revert h1 h2 <;> decide

theorem hex_length (s : List Char) (h : isObjectIdHex s = true) : s.length = 24 := by
  unfold isObjectIdHex at h
  rw [Bool.and_eq_true, decide_eq_true_iff] at h
  exact h.1

theorem suffixAfterLastSlash_append (a b : List Char) (hb : ∀ c ∈ b, ¬ (c = '/')) :
    suffixAfterLastSlash (a ++ '/' :: b) = b := by
  unfold suffixAfterLastSlash
  rw [List.reverse_append, List.reverse_cons, List.append_assoc]
  rw [List.takeWhile_append_of_pos (by
    intro x hx
    rw [List.mem_reverse] at hx
    simpa using hb x hx)]
  rw [List.singleton_append, List.takeWhile_cons_of_neg (by simp)]
  simp

theorem buildS3Key_suffix (sessionId : List Char) (category : FileCategory)
    (fileId : List Char) (originalName : List Char)
    (hhex : isObjectIdHex fileId = true) :
    suffixAfterLastSlash (buildS3Key sessionId category fileId originalName) =
      fileId ++ ['-'] ++ sanitizeFileName originalName ++ ".pdf".data := by
  unfold buildS3Key
  have hassoc :
      "sessions/".data ++ sessionId ++ ['/'] ++
          (if category = FileCategory.unfiled then "root".data
            else fileCategoryString category) ++ ['/'] ++
          (fileId ++ ['-'] ++ sanitizeFileName originalName ++ ".pdf".data) =
        ("sessions/".data ++ sessionId ++ ['/'] ++
            (if category = FileCategory.unfiled then "root".data
              else fileCategoryString category)) ++
          '/' :: (fileId ++ ['-'] ++ sanitizeFileName originalName ++ ".pdf".data) := by
    simp
  rw [hassoc, suffixAfterLastSlash_append]
  intro c hc
  simp only [List.append_assoc, List.mem_append] at hc
  rcases hc with hc | hc | hc | hc
  · exact hex_no_slash fileId hhex c hc
  · intro heq
    subst heq
    simp at hc
  · exact sanitizeFileName_no_slash originalName c hc
  · intro heq
    subst heq
    revert hc
    decide

/-- C8: `buildS3Key` is a pure function of (sessionId, category, fileId,
originalName) — equal inputs give equal keys of the shape
`sessions/<sid>/<folder>/<fileId>-<sanitizedName>.pdf` — and any two records
with distinct 24-character hex fileIds get distinct keys, whatever their
sessions, categories, or original names. -/
theorem C8_storage_key_deterministic_and_injective
    (sid1 sid2 : List Char) (cat1 cat2 : FileCategory)
    (fid1 fid2 name1 name2 : List Char) :
    ((sid1 = sid2 ∧ cat1 = cat2 ∧ fid1 = fid2 ∧ name1 = name2) →
        buildS3Key sid1 cat1 fid1 name1 = buildS3Key sid2 cat2 fid2 name2) ∧
      (isObjectIdHex fid1 = true → isObjectIdHex fid2 = true → fid1 ≠ fid2 →
        buildS3Key sid1 cat1 fid1 name1 ≠ buildS3Key sid2 cat2 fid2 name2) := by
  constructor
  · rintro ⟨h1, h2, h3, h4⟩
    rw [h1, h2, h3, h4]
  · intro hhex1 hhex2 hne heq
    have hsuf := congrArg suffixAfterLastSlash heq
    rw [buildS3Key_suffix sid1 cat1 fid1 name1 hhex1,
      buildS3Key_suffix sid2 cat2 fid2 name2 hhex2] at hsuf
    simp only [List.append_assoc] at hsuf
    exact hne (List.append_inj_left hsuf
      ((hex_length fid1 hhex1).trans (hex_length fid2 hhex2).symm))

/-- Witness for C8: two concrete records sharing session, category and name
but with different ObjectIds have different keys; identical inputs give the
identical key. -/
theorem C8_storage_key_witness :
    buildS3Key ("AAAAAAA2".data) FileCategory.credit
        ("5f4e3d2c1b0a99887766554a".data) ("My Statement.PDF".data) ≠
      buildS3Key ("AAAAAAA2".data) FileCategory.credit
        ("5f4e3d2c1b0a99887766554b".data) ("My Statement.PDF".data) :=
  (C8_storage_key_deterministic_and_injective ("AAAAAAA2".data) ("AAAAAAA2".data)
      FileCategory.credit FileCategory.credit
      ("5f4e3d2c1b0a99887766554a".data) ("5f4e3d2c1b0a99887766554b".data)
      ("My Statement.PDF".data) ("My Statement.PDF".data)).2
    (by decide) (by decide) (by decide)

theorem updateFirst_first_match {α : Type} (p : α → Bool) (f : α → α) (l : List α)
    (hex : ∃ x ∈ l, p x = true) :
    ∃ x ∈ l, p x = true ∧ f x ∈ updateFirst p f l := by
  induction l with
  | nil => simp at hex
  | cons a rest ih =>
    by_cases ha : p a
    · refine ⟨a, List.mem_cons_self _ _, ha, ?_⟩
      unfold updateFirst
      rw [if_pos ha]
      exact List.mem_cons_self _ _
    · rw [Bool.not_eq_true] at ha
      obtain ⟨x, hx, hpx⟩ := hex
      rcases List.mem_cons.mp hx with h | h
      · subst h
        rw [hpx] at ha
        cases ha
      · obtain ⟨y, hy, hpy, hfy⟩ := ih ⟨x, h, hpx⟩
        refine ⟨y, List.mem_cons_of_mem _ hy, hpy, ?_⟩
        unfold updateFirst
        rw [if_neg (by simp [ha])]
        exact List.mem_cons_of_mem _ hfy

theorem getOwnedSessionById_ok (st : DBState) (sessionId : List Char) (user : Requester)
    (sess : SessionRec) (h : getOwnedSessionById st sessionId user = .ok sess) :
    sess ∈ st.sessions ∧ sess.sessionId = sessionId ∧
      sess.email = normalizeEmail user.email ∧ sess.status ≠ SessionStatus.deleted := by
  unfold getOwnedSessionById at h
  split_ifs at h
  cases hf : st.sessions.find? (fun s =>
      s.sessionId == sessionId && s.email == normalizeEmail user.email &&
        s.status != SessionStatus.deleted) with
  | none => rw [hf] at h; cases h
  | some s =>
    rw [hf] at h
    have hs : s = sess := by simpa using h
    subst hs
    have hmem := List.mem_of_find?_eq_some hf
    have hp := List.find?_some hf
    rw [Bool.and_eq_true, Bool.and_eq_true] at hp
    obtain ⟨⟨h1, h2⟩, h3⟩ := hp
    rw [beq_iff_eq] at h1 h2
    refine ⟨hmem, h1, h2, ?_⟩
    intro heq
    rw [heq] at h3
    simp at h3

/-- C5 (amended): session deletion cascades best-effort for an owning
requester whose email is already in normalized (trimmed, lowercased) form —
as every server-minted token's email is.  The call returns `{deleted: true}`,
soft-deletes the session record, attempts a storage-object delete for every
`uploaded` file of the session whatever each attempt's outcome, and marks all
those file records `deleted` with a `deletedAt`; no storage failure blocks
another attempt or any record transition.  (For an owning requester whose
email is not byte-identical to the stored lowercased email the session
record is left untouched while the cascade still runs — see the
counterexample.) -/
theorem C5_delete_cascade (storageDeleteOk : List Char → List Char → Bool) (now : Nat)
    (st : DBState) (sessionId : List Char) (user : Requester) (sess : SessionRec)
    (hnorm : user.email = normalizeEmail user.email)
    (hown : getOwnedSessionById st sessionId user = .ok sess) :
    ∃ st' attempts,
      deleteActiveSessionById storageDeleteOk now st sessionId user =
          .ok (true, st', attempts) ∧
        (∃ s' ∈ st'.sessions, s'.sessionId = sessionId ∧
          s'.status = SessionStatus.deleted ∧ s'.deletedAt = some now) ∧
        (∀ f ∈ st.files, f.sessionId = sessionId → f.status = FileStatus.uploaded →
          (f.s3Bucket, f.s3Key, storageDeleteOk f.s3Bucket f.s3Key) ∈ attempts) ∧
        (∀ f ∈ st.files, f.sessionId = sessionId → f.status = FileStatus.uploaded →
          ∃ f' ∈ st'.files, f'.id = f.id ∧ f'.status = FileStatus.deleted ∧
            f'.deletedAt = some now) := by
  obtain ⟨hmem, hsid, hemail, hstat⟩ := getOwnedSessionById_ok st sessionId user sess hown
  unfold deleteActiveSessionById
  rw [hown]
  refine ⟨_, _, rfl, ?_, ?_, ?_⟩
  · obtain ⟨x, hx, hpx, hfx⟩ := updateFirst_first_match
      (fun s => s.sessionId == sessionId && s.email == user.email)
      (fun s => { s with status := SessionStatus.deleted, deletedAt := some now })
      st.sessions
      ⟨sess, hmem, by
        rw [Bool.and_eq_true, beq_iff_eq, beq_iff_eq]
        exact ⟨hsid, hemail.trans hnorm.symm⟩⟩
    rw [Bool.and_eq_true, beq_iff_eq] at hpx
    exact ⟨_, hfx, hpx.1, rfl, rfl⟩
  · intro f hf hfs hfu
    have hmemf : f ∈ st.files.filter
        (fun f => f.sessionId == sessionId && f.status == FileStatus.uploaded) := by
      rw [List.mem_filter]
      exact ⟨hf, by rw [Bool.and_eq_true, beq_iff_eq, beq_iff_eq]; exact ⟨hfs, hfu⟩⟩
    exact List.mem_map_of_mem _ hmemf
  · intro f hf hfs hfu
    have hmemf : f ∈ st.files.filter
        (fun f => f.sessionId == sessionId && f.status == FileStatus.uploaded) := by
      rw [List.mem_filter]
      exact ⟨hf, by rw [Bool.and_eq_true, beq_iff_eq, beq_iff_eq]; exact ⟨hfs, hfu⟩⟩
    have hid : f.id ∈ (st.files.filter
        (fun f => f.sessionId == sessionId && f.status == FileStatus.uploaded)).map
          FileRec.id := List.mem_map_of_mem _ hmemf
    have hcont : ((st.files.filter
        (fun f => f.sessionId == sessionId && f.status == FileStatus.uploaded)).map
          FileRec.id).contains f.id = true := List.elem_eq_true_of_mem hid
    refine ⟨_, List.mem_map_of_mem _ hf, ?_⟩
    rw [if_pos hcont]
    exact ⟨rfl, rfl, rfl⟩

/-- Witness for C5: a concrete owning requester with normalized email deletes
a session with one uploaded file whose storage delete fails; the call returns
`{deleted:true}`, the session is soft-deleted, the attempt is recorded and
the file record transitions. -/
theorem C5_delete_cascade_witness :
    ∃ st' attempts,
      deleteActiveSessionById (fun _ _ => false) 50 exampleState
          ("AAAAAAA2".data) normalizedUser = .ok (true, st', attempts) ∧
        (∃ s' ∈ st'.sessions, s'.sessionId = "AAAAAAA2".data ∧
          s'.status = SessionStatus.deleted ∧ s'.deletedAt = some 50) ∧
        (∀ f ∈ exampleState.files, f.sessionId = "AAAAAAA2".data →
          f.status = FileStatus.uploaded →
          (f.s3Bucket, f.s3Key, false) ∈ attempts) ∧
        (∀ f ∈ exampleState.files, f.sessionId = "AAAAAAA2".data →
          f.status = FileStatus.uploaded →
          ∃ f' ∈ st'.files, f'.id = f.id ∧ f'.status = FileStatus.deleted ∧
            f'.deletedAt = some 50) :=
  C5_delete_cascade (fun _ _ => false) 50 exampleState ("AAAAAAA2".data)
    normalizedUser exampleSession (by decide) rfl

/-- C5 counterexample: the same deletion issued by the owning requester with
a mixed-case email (`User@example.com`) — authorization passes and
`{deleted:true}` is returned with the file cascade executed, but the session
record is NOT soft-deleted (it stays `active` with no `deletedAt`), because
the session `updateOne` filters on the raw, un-normalized `user.email`. -/
theorem C5_counterexample :
    deleteActiveSessionById (fun _ _ => true) 50 exampleState
        ("AAAAAAA2".data) mixedCaseUser =
      .ok (true,
        ⟨[exampleSession],
          [{ exampleUploadedFile with status := FileStatus.deleted, deletedAt := some 50 }]⟩,
        [("bucket".data, "key".data, true)]) := rfl

theorem trimChars_head_not_ws (s : List Char) (h : trimChars s ≠ []) :
    Char.isWhitespace ((trimChars s).head h) = false := by
  have hd : s.dropWhile Char.isWhitespace ≠ [] := by
    intro hnil
    apply h
    unfold trimChars
    rw [hnil]
    rfl
  have hpre : trimChars s <+: s.dropWhile Char.isWhitespace :=
    List.rdropWhile_prefix (l := s.dropWhile Char.isWhitespace) Char.isWhitespace
  rw [hpre.head h]
  exact List.head_dropWhile_not Char.isWhitespace s hd

theorem trimChars_trimChars_ne_nil (s : List Char) (h : trimChars s ≠ []) :
    trimChars (trimChars s) ≠ [] := by
  have hhead := trimChars_head_not_ws s h
  intro hnil
  have hds : (trimChars s).dropWhile Char.isWhitespace = trimChars s := by
    rw [List.dropWhile_eq_self_iff]
    intro hl
    have hget : (trimChars s).get ⟨0, hl⟩ = (trimChars s).head h := by
      rw [List.get_mk_zero]
    rw [hget, hhead]
    simp
  have heq : trimChars (trimChars s) =
      ((trimChars s).dropWhile Char.isWhitespace).rdropWhile Char.isWhitespace := rfl
  rw [heq, hds, List.rdropWhile_eq_nil_iff] at hnil
  have hws := hnil _ (List.head_mem h)
  rw [hhead] at hws
  cases hws

theorem getFileNameKey_normalize_ne_nil (o : Option (List Char)) :
    getFileNameKey (normalizeOriginalFileName o) ≠ [] := by
  unfold getFileNameKey normalizeOriginalFileName
  cases o with
  | none => decide
  | some n =>
    dsimp only
    by_cases ht : trimChars n = []
    · rw [if_pos ht]
      decide
    · rw [if_neg ht]
      intro hmap
      rw [List.map_eq_nil_iff] at hmap
      exact trimChars_trimChars_ne_nil n ht hmap

theorem keyMem_true_iff (keys : List (List Char)) (k : List Char) :
    keyMem keys k = true ↔ k ∈ keys := by
  unfold keyMem List.contains
  rw [List.elem_eq_mem]
  simp

theorem keyMem_false_iff (keys : List (List Char)) (k : List Char) :
    keyMem keys k = false ↔ k ∉ keys := by
  rw [← Bool.not_eq_true, keyMem_true_iff]

theorem processOneFile_spec (ctx : UploadCtx) (st : UploadLoopState)
    (file : MultipartFile) :
    (∃ tail, (processOneFile ctx st file).rejected = st.rejected ++ tail) ∧
      (keyMem st.keys (getFileNameKey (normalizeOriginalFileName file.originalname)) = true →
        processOneFile ctx st file =
          { st with rejected := st.rejected ++
              [⟨normalizeOriginalFileName file.originalname, DUPLICATE_FILE_NAME_REASON⟩] }) ∧
      (((processOneFile ctx st file).keys = st.keys ∧
          (processOneFile ctx st file).newRecords = st.newRecords) ∨
        (keyMem st.keys (getFileNameKey (normalizeOriginalFileName file.originalname)) = false ∧
          (processOneFile ctx st file).keys =
            st.keys ++ [getFileNameKey (normalizeOriginalFileName file.originalname)] ∧
          ∃ r, (processOneFile ctx st file).newRecords = st.newRecords ++ [r] ∧
            fileRecKey r = getFileNameKey (normalizeOriginalFileName file.originalname) ∧
            r.sessionId = ctx.sessionId ∧ r.status ≠ FileStatus.deleted)) := by
  unfold processOneFile
  dsimp only
  by_cases hdup : keyMem st.keys (getFileNameKey (normalizeOriginalFileName file.originalname))
  · rw [if_pos hdup]
    exact ⟨⟨_, rfl⟩, fun _ => rfl, Or.inl ⟨rfl, rfl⟩⟩
  · rw [Bool.not_eq_true] at hdup
    rw [if_neg (by simp [hdup])]
    by_cases hmime : file.mimetype ≠ "application/pdf"
    · rw [if_pos hmime]
      exact ⟨⟨_, rfl⟩, fun hk => absurd hk (by simp [hdup]), Or.inl ⟨rfl, rfl⟩⟩
    · rw [if_neg hmime]
      by_cases hsize : ctx.maxFileSizeMb * 1024 * 1024 < file.size
      · rw [if_pos hsize]
        exact ⟨⟨_, rfl⟩, fun hk => absurd hk (by simp [hdup]), Or.inl ⟨rfl, rfl⟩⟩
      · rw [if_neg hsize]
        split
        · exact ⟨⟨_, rfl⟩, fun hk => absurd hk (by simp [hdup]), Or.inl ⟨rfl, rfl⟩⟩
        · split
          · refine ⟨⟨[], by simp⟩, fun hk => absurd hk (by simp [hdup]),
              Or.inr ⟨hdup, rfl, _, rfl, rfl, rfl, by simp⟩⟩
          · refine ⟨⟨_, rfl⟩, fun hk => absurd hk (by simp [hdup]),
              Or.inr ⟨hdup, rfl, _, rfl, rfl, rfl, by simp⟩⟩

theorem processOneFile_keys_mono (ctx : UploadCtx) (st : UploadLoopState)
    (file : MultipartFile) (k : List Char) (hk : k ∈ st.keys) :
    k ∈ (processOneFile ctx st file).keys := by
  rcases (processOneFile_spec ctx st file).2.2 with ⟨hkeys, -⟩ | ⟨-, hkeys, -⟩
  · rw [hkeys]
    exact hk
  · rw [hkeys]
    exact List.mem_append_left _ hk

theorem processFold_rejected_mono (ctx : UploadCtx) (batch : List MultipartFile)
    (st0 : UploadLoopState) :
    ∃ tail, (batch.foldl (processOneFile ctx) st0).rejected = st0.rejected ++ tail := by
  induction batch generalizing st0 with
  | nil => exact ⟨[], by simp⟩
  | cons f rest ih =>
    rw [List.foldl_cons]
    obtain ⟨t1, ht1⟩ := (processOneFile_spec ctx st0 f).1
    obtain ⟨t2, ht2⟩ := ih (processOneFile ctx st0 f)
    exact ⟨t1 ++ t2, by rw [ht2, ht1, List.append_assoc]⟩

theorem processFold_dup_rejected (ctx : UploadCtx) (batch : List MultipartFile)
    (st0 : UploadLoopState) (f : MultipartFile) (hf : f ∈ batch)
    (hk : keyMem st0.keys
      (getFileNameKey (normalizeOriginalFileName f.originalname)) = true) :
    (⟨normalizeOriginalFileName f.originalname, DUPLICATE_FILE_NAME_REASON⟩ :
        RejectedFileItem) ∈ (batch.foldl (processOneFile ctx) st0).rejected := by
  induction batch generalizing st0 with
  | nil => simp at hf
  | cons f0 rest ih =>
    rw [List.foldl_cons]
    rcases List.mem_cons.mp hf with h | h
    · subst h
      have hdup := (processOneFile_spec ctx st0 f).2.1 hk
      obtain ⟨tail, htail⟩ := processFold_rejected_mono ctx rest (processOneFile ctx st0 f)
      rw [htail, hdup]
      exact List.mem_append_left _ (by simp)
    · have hk1 : keyMem (processOneFile ctx st0 f0).keys
          (getFileNameKey (normalizeOriginalFileName f.originalname)) = true := by
        rw [keyMem_true_iff]
        exact processOneFile_keys_mono ctx st0 f0 _ ((keyMem_true_iff _ _).mp hk)
      exact ih (processOneFile ctx st0 f0) h hk1

theorem LoopInv_step (sessionId : List Char) (keys0 : List (List Char))
    (ctx : UploadCtx) (hsid : ctx.sessionId = sessionId) (st : UploadLoopState)
    (file : MultipartFile) (hinv : LoopInv sessionId keys0 st) :
    LoopInv sessionId keys0 (processOneFile ctx st file) := by
  obtain ⟨hiff, hnodup, hprops⟩ := hinv
  rcases (processOneFile_spec ctx st file).2.2 with ⟨hkeys, hrecs⟩ |
    ⟨hnew, hkeys, r, hrecs, hrkey, hrsid, hrstat⟩
  · exact ⟨fun k => hkeys ▸ hrecs ▸ hiff k, hrecs ▸ hnodup, hrecs ▸ hprops⟩
  · have hknot : getFileNameKey (normalizeOriginalFileName file.originalname) ∉ st.keys :=
      (keyMem_false_iff _ _).mp hnew
    refine ⟨?_, ?_, ?_⟩
    · intro k
      rw [hkeys, hrecs, List.map_append, List.mem_append, List.mem_append]
      simp only [List.map_cons, List.map_nil, List.mem_singleton, hrkey]
      constructor
      · rintro (h | h)
        · rcases (hiff k).mp h with h' | h'
          · exact Or.inl h'
          · exact Or.inr (Or.inl h')
        · exact Or.inr (Or.inr h)
      · rintro (h | h | h)
        · exact Or.inl ((hiff k).mpr (Or.inl h))
        · exact Or.inl ((hiff k).mpr (Or.inr h))
        · exact Or.inr h
    · rw [hrecs, List.map_append]
      rw [List.nodup_append]
      refine ⟨hnodup, by simp, ?_⟩
      intro k hkmem
      simp only [List.map_cons, List.map_nil, List.mem_singleton, hrkey]
      intro hkeq
      rw [hkeq] at hkmem
      exact hknot ((hiff _).mpr (Or.inr hkmem))
    · intro r' hr'
      rw [hrecs, List.mem_append] at hr'
      rcases hr' with h | h
      · exact hprops r' h
      · rw [List.mem_singleton] at h
        subst h
        refine ⟨hsid ▸ hrsid, hrstat, ?_, ?_⟩
        · rw [hrkey]
          intro hk0
          exact hknot ((hiff _).mpr (Or.inl hk0))
        · rw [hrkey]
          exact getFileNameKey_normalize_ne_nil file.originalname

theorem LoopInv_fold (sessionId : List Char) (keys0 : List (List Char))
    (ctx : UploadCtx) (hsid : ctx.sessionId = sessionId) (batch : List MultipartFile)
    (st0 : UploadLoopState) (hinv : LoopInv sessionId keys0 st0) :
    LoopInv sessionId keys0 (batch.foldl (processOneFile ctx) st0) := by
  induction batch generalizing st0 with
  | nil => exact hinv
  | cons f rest ih =>
    rw [List.foldl_cons]
    exact ih _ (LoopInv_step sessionId keys0 ctx hsid st0 f hinv)

theorem getFileNameKey_nil : getFileNameKey [] = [] := rfl

theorem fileRecKey_mem_getExistingFileNameKeys (files : List FileRec)
    (sessionId : List Char) (r : FileRec) (hr : r ∈ files)
    (hsid : r.sessionId = sessionId) (hst : r.status ≠ FileStatus.deleted)
    (hname : r.originalName ≠ []) :
    fileRecKey r ∈ getExistingFileNameKeys files sessionId := by
  unfold getExistingFileNameKeys
  refine List.mem_filterMap.mpr ⟨r, ?_, ?_⟩
  · exact List.mem_filter.mpr ⟨hr, by simp [hsid, hst]⟩
  · rw [if_neg hname]
    rfl

theorem sessionNameKeys_append (a b : List FileRec) (sid : List Char) :
    sessionNameKeys (a ++ b) sid = sessionNameKeys a sid ++ sessionNameKeys b sid := by
  simp [sessionNameKeys, List.filter_append]

theorem sessionNameKeys_eq_map (recs : List FileRec) (sid : List Char)
    (h : ∀ r ∈ recs, r.sessionId = sid ∧ r.status ≠ FileStatus.deleted) :
    sessionNameKeys recs sid = recs.map fileRecKey := by
  unfold sessionNameKeys
  rw [List.filter_eq_self.mpr]
  intro r hr
  obtain ⟨h1, h2⟩ := h r hr
  simp [h1, h2]

/-- **C6.** Corrected form of the upload name-uniqueness invariant,
restricted to the processed batch `files.take maxFiles` (files beyond the
per-request cap are rejected with the count-exceeded reason before the
duplicate check ever sees them): starting from a session whose non-deleted
file records have pairwise-distinct case-insensitive name keys, a
successful `uploadFilesToSession` (a) preserves that uniqueness, (b) for
every decomposition of the processed batch as `pre ++ f :: post`, rejects
`f` with the duplicate-name reason whenever its normalized name key
collides with an existing non-deleted file of the session or with a record
created for an earlier file of the same batch (the records created while
folding over `pre` — every file accepted earlier in the batch contributes
one), and (c) only appends records whose name keys are fresh for the
session and pairwise distinct (so no record is created for a rejected
duplicate). -/
theorem C6_upload_name_uniqueness (maxFiles : Nat) (ctx : UploadCtx) (st : DBState)
    (user : Requester) (files : List MultipartFile)
    (hints : List (List Char × StatementType)) (resp : UploadFilesResponse)
    (st2 : DBState)
    (hpre : (sessionNameKeys st.files ctx.sessionId).Nodup)
    (hrun : uploadFilesToSession maxFiles ctx st user files hints =
      Except.ok (resp, st2)) :
    (sessionNameKeys st2.files ctx.sessionId).Nodup ∧
      (∀ pre f post, files.take maxFiles = pre ++ f :: post →
        (getFileNameKey (normalizeOriginalFileName f.originalname) ∈
            getExistingFileNameKeys st.files ctx.sessionId ∨
          getFileNameKey (normalizeOriginalFileName f.originalname) ∈
            ((pre.foldl (processOneFile (uploadFoldCtx ctx hints))
                (uploadInitState maxFiles st ctx.sessionId files)).newRecords.map
              fileRecKey)) →
        (⟨normalizeOriginalFileName f.originalname, DUPLICATE_FILE_NAME_REASON⟩ :
            RejectedFileItem) ∈ resp.rejected) ∧
      ∃ created, st2.files = st.files ++ created ∧
        (created.map fileRecKey).Nodup ∧
        ∀ r ∈ created, r.sessionId = ctx.sessionId ∧
          r.status ≠ FileStatus.deleted ∧
          fileRecKey r ∉ getExistingFileNameKeys st.files ctx.sessionId := by
  unfold uploadFilesToSession at hrun
  split at hrun
  · exact Except.noConfusion hrun
  · split at hrun
    · exact Except.noConfusion hrun
    · dsimp only at hrun
      rw [Except.ok.injEq, Prod.mk.injEq] at hrun
      obtain ⟨hresp, hst2⟩ := hrun
      have hrr : resp.rejected = ((files.take maxFiles).foldl
          (processOneFile (uploadFoldCtx ctx hints))
          (uploadInitState maxFiles st ctx.sessionId files)).rejected := by
        rw [← hresp]
      have hff : st2.files = st.files ++ ((files.take maxFiles).foldl
          (processOneFile (uploadFoldCtx ctx hints))
          (uploadInitState maxFiles st ctx.sessionId files)).newRecords := by
        rw [← hst2]
      have hinv0 : LoopInv ctx.sessionId
          (getExistingFileNameKeys st.files ctx.sessionId)
          (uploadInitState maxFiles st ctx.sessionId files) := by
        refine ⟨fun k => ?_, ?_, ?_⟩
        · simp [uploadInitState]
        · simp [uploadInitState]
        · simp [uploadInitState]
      have hinv := LoopInv_fold ctx.sessionId
        (getExistingFileNameKeys st.files ctx.sessionId)
        (uploadFoldCtx ctx hints) rfl (files.take maxFiles)
        (uploadInitState maxFiles st ctx.sessionId files) hinv0
      obtain ⟨-, hnodupF, hpropsF⟩ := hinv
      refine ⟨?_, ?_, ?_⟩
      · rw [hff, sessionNameKeys_append,
          sessionNameKeys_eq_map _ _ (fun r hr => ⟨(hpropsF r hr).1, (hpropsF r hr).2.1⟩),
          List.nodup_append]
        refine ⟨hpre, hnodupF, ?_⟩
        intro k hk1 hk2
        unfold sessionNameKeys at hk1
        obtain ⟨r, hrmem, hrk⟩ := List.mem_map.mp hk1
        obtain ⟨r2, hr2mem, hr2k⟩ := List.mem_map.mp hk2
        obtain ⟨hrfiles, hp⟩ := List.mem_filter.mp hrmem
        simp only [Bool.and_eq_true, beq_iff_eq, bne_iff_ne, ne_eq] at hp
        obtain ⟨-, -, hnotin0, hne0⟩ := hpropsF r2 hr2mem
        by_cases hnm : r.originalName = []
        · refine hne0 ?_
          rw [hr2k, ← hrk]
          unfold fileRecKey
          rw [hnm, getFileNameKey_nil]
        · refine hnotin0 ?_
          rw [hr2k, ← hrk]
          exact fileRecKey_mem_getExistingFileNameKeys st.files ctx.sessionId r
            hrfiles hp.1 hp.2 hnm
      · intro pre f post hsplit hkey
        have hinvpre := LoopInv_fold ctx.sessionId
          (getExistingFileNameKeys st.files ctx.sessionId)
          (uploadFoldCtx ctx hints) rfl pre
          (uploadInitState maxFiles st ctx.sessionId files) hinv0
        have hkf : keyMem (pre.foldl (processOneFile (uploadFoldCtx ctx hints))
            (uploadInitState maxFiles st ctx.sessionId files)).keys
            (getFileNameKey (normalizeOriginalFileName f.originalname)) = true := by
          rw [keyMem_true_iff]
          exact (hinvpre.1 _).mpr hkey
        have hdup := (processOneFile_spec (uploadFoldCtx ctx hints)
          (pre.foldl (processOneFile (uploadFoldCtx ctx hints))
            (uploadInitState maxFiles st ctx.sessionId files)) f).2.1 hkf
        obtain ⟨tail, htail⟩ := processFold_rejected_mono (uploadFoldCtx ctx hints) post
          (processOneFile (uploadFoldCtx ctx hints)
            (pre.foldl (processOneFile (uploadFoldCtx ctx hints))
              (uploadInitState maxFiles st ctx.sessionId files)) f)
        rw [hrr, hsplit, List.foldl_append, List.foldl_cons, htail, hdup]
        simp
      · exact ⟨_, hff, hnodupF, fun r hr =>
          ⟨(hpropsF r hr).1, (hpropsF r hr).2.1, (hpropsF r hr).2.2.1⟩⟩

/-- **C6 counterexample.** A batch file whose trimmed, lowercased name equals
the name of an existing non-deleted file of the session is NOT always
rejected with the duplicate-name reason: when it falls beyond the
`maxFiles` cut it is rejected with the count-exceeded reason instead, and
no rejection in the whole response carries the duplicate-name reason. -/
theorem C6_counterexample :
    getFileNameKey (normalizeOriginalFileName c6fileDupA.originalname) ∈
        getExistingFileNameKeys exampleState.files c6ctx.sessionId ∧
      ∃ resp st2, c6run = Except.ok (resp, st2) ∧
        (⟨"a.pdf".data, "Exceeded max file count (1)."⟩ : RejectedFileItem) ∈
          resp.rejected ∧
        ∀ item ∈ resp.rejected, item.reason ≠ DUPLICATE_FILE_NAME_REASON := by
  refine ⟨by decide, _, _, rfl, ?_, ?_⟩
  · decide
  · decide

/-- **C6 witness.** The uniqueness-preservation theorem applied to a
concrete in-cap upload against the example store. -/
theorem C6_upload_name_uniqueness_witness :
    ∃ resp st2, c6goodRun = Except.ok (resp, st2) ∧
      (sessionNameKeys st2.files c6ctx.sessionId).Nodup :=
  ⟨_, _, rfl,
    (C6_upload_name_uniqueness 10 c6ctx exampleState normalizedUser [c6fileB] []
      _ _ (by decide) rfl).1⟩

end Balance
